import Mathlib

/-!
Verification development for the Scratch project downloader
(`downloader_multiproceso.py`).  The Python source is embedded shallowly:

* byte payloads are `List Nat` (byte values), decoded text is `List Nat`
  (Unicode code points);
* the worker `worker_download_pack` is a fuel-based retry loop over an
  abstract per-attempt service behaviour (`AttemptSpec`), mirroring the
  `for attempt in range(1, retry + 1)` loop and its exception handling;
* the `json.loads` call of the standard library is an external collaborator
  and is embedded as an uninterpreted validity predicate `jsonOk`;
* the orchestrator in `main` is a transition system driven by a schedule
  choosing which in-flight future completes next (`as_completed` order) and
  when a stop signal arrives.
-/

set_option maxRecDepth 10000

namespace ScratchDownloader

/-- Code points treated as whitespace by Python `str.strip` / `str.lstrip`. -/
def pyIsSpace (c : Nat) : Bool :=
  (0x09 ≤ c && c ≤ 0x0D) || (0x1C ≤ c && c ≤ 0x1F) || c == 0x20 || c == 0x85 ||
  c == 0xA0 || c == 0x1680 || (0x2000 ≤ c && c ≤ 0x200A) ||
  c == 0x2028 || c == 0x2029 || c == 0x202F || c == 0x205F || c == 0x3000

/-- Python `text.lstrip()` on a list of code points. -/
def pyLstrip (l : List Nat) : List Nat := l.dropWhile pyIsSpace

/-- Python `text.strip()` on a list of code points. -/
def pyStrip (l : List Nat) : List Nat :=
  ((l.dropWhile pyIsSpace).reverse.dropWhile pyIsSpace).reverse

/-- Continuation byte test for UTF-8 (`0x80 ≤ b ≤ 0xBF`). -/
def isCont (b : Nat) : Bool := 0x80 ≤ b && b ≤ 0xBF

/-- Strict UTF-8 decoding of a byte list to code points, as performed by
Python `raw.decode("utf-8")`; `none` models a `UnicodeDecodeError`.  The
fuel argument is always called with the length of the list. -/
def utf8DecodeAux : Nat → List Nat → Option (List Nat)
  | _, [] => some []
  | 0, _ :: _ => none
  | fuel+1, b0 :: t =>
    if b0 ≤ 0x7F then (utf8DecodeAux fuel t).map (fun r => b0 :: r)
    else if 0xC2 ≤ b0 && b0 ≤ 0xDF then
      match t with
      | b1 :: t1 =>
        if isCont b1 then
          (utf8DecodeAux fuel t1).map (fun r => ((b0 - 0xC0) * 0x40 + (b1 - 0x80)) :: r)
        else none
      | [] => none
    else if 0xE0 ≤ b0 && b0 ≤ 0xEF then
      match t with
      | b1 :: b2 :: t2 =>
        let okB1 :=
          if b0 == 0xE0 then 0xA0 ≤ b1 && b1 ≤ 0xBF
          else if b0 == 0xED then 0x80 ≤ b1 && b1 ≤ 0x9F
          else isCont b1
        if okB1 && isCont b2 then
          (utf8DecodeAux fuel t2).map
            (fun r => ((b0 - 0xE0) * 0x1000 + (b1 - 0x80) * 0x40 + (b2 - 0x80)) :: r)
        else none
      | _ => none
    else if 0xF0 ≤ b0 && b0 ≤ 0xF4 then
      match t with
      | b1 :: b2 :: b3 :: t3 =>
        let okB1 :=
          if b0 == 0xF0 then 0x90 ≤ b1 && b1 ≤ 0xBF
          else if b0 == 0xF4 then 0x80 ≤ b1 && b1 ≤ 0x8F
          else isCont b1
        if okB1 && isCont b2 && isCont b3 then
          (utf8DecodeAux fuel t3).map
            (fun r => ((b0 - 0xF0) * 0x40000 + (b1 - 0x80) * 0x1000 +
                       (b2 - 0x80) * 0x40 + (b3 - 0x80)) :: r)
        else none
      | _ => none
    else none

/-- `raw.decode("utf-8")`, `none` on decode error. -/
def utf8Decode (raw : List Nat) : Option (List Nat) := utf8DecodeAux raw.length raw

/-- `raw.decode("latin-1", errors="replace")`: every byte 0..255 maps to the
code point of the same value, so the decoding is total. -/
def latin1Decode (raw : List Nat) : List Nat := raw

/-- Lines 209-212 of the worker: decode as UTF-8, falling back to latin-1
with replacement on decode failure. -/
def decodeBytes (raw : List Nat) : List Nat :=
  match utf8Decode raw with
  | some t => t
  | none => latin1Decode raw

/-- Lines 208-215 of the worker (`worker_download_pack` step 3): decode the
payload, reject it unless its first non-whitespace character is 123 = the
opening brace or 91 = the opening bracket, then hand it to `json.loads`
(the uninterpreted collaborator `jsonOk`); an `error` result models the
`ValueError` raised on rejection. -/
def validatePayload (jsonOk : List Nat → Bool) (raw : List Nat) :
    Except String (List Nat) :=
  let text := decodeBytes raw
  if (pyStrip text).isEmpty || !((pyLstrip text).take 1 == [123] || (pyLstrip text).take 1 == [91]) then
    .error "Respuesta no JSON"
  else if jsonOk text then .ok text
  else .error "Expecting value"

/-- Metadata as returned by the remote service (`sess.get_project`),
before sanitisation. -/
structure RawMeta where
  title : String
  author : String
  creation_date : String
  modified_date : String
  remix_parent : String
  remix_root : String
deriving DecidableEq, Repr

/-- Python `s.replace(a, b)` for single characters. -/
def pyReplace (s : String) (a b : Char) : String :=
  ⟨s.data.map (fun c => if c = a then b else c)⟩

/-- One row of the dataset CSV, lines 230-236 of the worker. -/
structure MetaRow where
  title : String
  projectId : Int
  author : String
  creation : String
  modified : String
  remixParent : String
  remixRoot : String
deriving DecidableEq, Repr

/-- Lines 228-236: build the best-effort CSV row; title and author have
every comma replaced by a space, and the second column is the project id. -/
def mkRow (pid : Int) (meta : Option RawMeta) : Option MetaRow :=
  meta.map fun m =>
    { title := pyReplace m.title ',' ' '
      projectId := pid
      author := pyReplace m.author ',' ' '
      creation := m.creation_date
      modified := m.modified_date
      remixParent := m.remix_parent
      remixRoot := m.remix_root }

/-- Behaviour of the external services during one attempt of the worker:
either `urlopen` raises (timeouts and connection failures surface as
`URLError` because `urlopen` wraps `OSError`s of the request), or a response
arrives with a status and a byte payload (plus the metadata the session
resolves for step 5, `none` when resolution fails), or an exception outside
the caught transient classes occurs. -/
inductive AttemptSpec where
  | netTimeout (msg : String)
  | netConnFail (msg : String)
  | response (status : Nat) (raw : List Nat) (meta : Option RawMeta)
  | fault (msg : String)

/-- Classified errors of one attempt: `transient` models the caught tuple
`(HTTPError, URLError, ValueError, RuntimeError)` of line 241, `fatal` the
bare `except Exception` of line 248. -/
inductive AErr where
  | transient (msg : String)
  | fatal (msg : String)
deriving DecidableEq, Repr

/-- Error message for a non-200 status, line 205. -/
def httpStatusMsg (status : Nat) : String := "HTTP " ++ toString status

/-- The body of one attempt of `worker_download_pack` (lines 191-240):
fetch, check the status, validate the payload, build the best-effort row. -/
def attemptBody (jsonOk : List Nat → Bool) (pid : Int) (spec : AttemptSpec) :
    Except AErr (Option MetaRow) :=
  match spec with
  | .netTimeout m => .error (.transient m)
  | .netConnFail m => .error (.transient m)
  | .fault m => .error (.fatal m)
  | .response status raw meta =>
    if status ≠ 200 then .error (.transient (httpStatusMsg status))
    else
      match validatePayload jsonOk raw with
      | .error m => .error (.transient m)
      | .ok _ => .ok (mkRow pid meta)

/-- Result of `worker_download_pack`, instrumented with the number of
attempts actually executed and the list of backoff sleeps performed. -/
structure WorkerRes where
  pid : Int
  ok : Bool
  row : Option MetaRow
  err : Option String
  attempts : Nat
  delays : List ℚ
deriving DecidableEq, Repr

/-- The retry loop of `worker_download_pack` (lines 190-252).  `fuel` is the
number of attempts still allowed (`retry - attempt + 1`); `attempt` is the
1-based attempt counter; `backoff` the current backoff value.  A transient
error sleeps and doubles the backoff (capped at 8) when attempts remain
(`attempt < retry`), otherwise breaks; a fatal error breaks immediately. -/
def workerAux (jsonOk : List Nat → Bool) (script : Nat → AttemptSpec) (pid : Int) :
    Nat → Nat → ℚ → List ℚ → Option String → WorkerRes
  | 0, attempt, _, delays, lastErr =>
    ⟨pid, false, none, some (lastErr.getD "unknown error"), attempt - 1, delays⟩
  | fuel+1, attempt, backoff, delays, _ =>
    match attemptBody jsonOk pid (script attempt) with
    | .ok row => ⟨pid, true, row, none, attempt, delays⟩
    | .error (.fatal m) => ⟨pid, false, none, some m, attempt, delays⟩
    | .error (.transient m) =>
      if fuel = 0 then ⟨pid, false, none, some m, attempt, delays⟩
      else workerAux jsonOk script pid fuel (attempt + 1) (min 8 (backoff * 2))
             (delays ++ [backoff]) (some m)

/-- `worker_download_pack(project_id, timeout, retry, ...)`: run the retry
loop from attempt 1 with backoff 0.75. -/
def worker_download_pack (jsonOk : List Nat → Bool) (script : Nat → AttemptSpec)
    (pid : Int) (retry : Nat) : WorkerRes :=
  workerAux jsonOk script pid retry 1 (3/4) [] none

/-- The backoff value before the k-th sleep: 0.75 initially, then
`min(8.0, backoff * 2)` after every transient error (line 245 of the worker
and line 174 of `ids_from_explore`). -/
def backoffSeq : Nat → ℚ
  | 0 => 3/4
  | k+1 => min 8 (backoffSeq k * 2)

/-- One response of the explore endpoint as seen by `ids_from_explore`:
either the request raises (`requests.Timeout`, `requests.RequestException`
from `raise_for_status`, or the `ValueError` raised on a non-list body —
all caught by the same `except` clause), or a page arrives whose items each
carry a parsable id (`some`) or an unparsable one (`none`, skipped). -/
inductive ExploreResp where
  | err (msg : String)
  | page (items : List (Option Int))

/-- State of the `ids_from_explore` generator loop (lines 139-174):
pagination offset, number of ids yielded, current backoff, ids yielded so
far, backoff sleeps performed, count of the fixed 1-second empty-page
pauses, index of the next request, and whether the generator returned. -/
structure ExploreState where
  offset : Nat
  yielded : Nat
  backoff : ℚ
  ids : List Int
  delays : List ℚ
  pauses : Nat
  reqIdx : Nat
  done : Bool
deriving Repr

/-- Initial explore state: `offset = 0`, `backoff = 0.75`. -/
def exploreInit : ExploreState :=
  { offset := 0, yielded := 0, backoff := 3/4, ids := [], delays := [],
    pauses := 0, reqIdx := 0, done := false }

/-- The `while True` loop of `ids_from_explore`, run for `fuel` requests.
An error sleeps the current backoff and doubles it (capped at 8); an empty
page resets the offset and pauses 1 second without touching the backoff; a
non-empty page yields its parsable ids (stopping at `amount` when bounded)
and advances the offset by 30, wrapping to 0 above 9900. -/
def ids_from_explore (amount : Nat) (resp : Nat → ExploreResp) :
    Nat → ExploreState → ExploreState
  | 0, st => st
  | fuel+1, st =>
    if st.done then st
    else
      match resp st.reqIdx with
      | .err _ =>
        ids_from_explore amount resp fuel
          { st with delays := st.delays ++ [st.backoff],
                    backoff := min 8 (st.backoff * 2),
                    reqIdx := st.reqIdx + 1 }
      | .page items =>
        if items.isEmpty then
          ids_from_explore amount resp fuel
            { st with offset := 0, pauses := st.pauses + 1, reqIdx := st.reqIdx + 1 }
        else
          let valid := items.filterMap id
          let canTake := if amount = 0 then valid.length else min valid.length (amount - st.yielded)
          let newIds := valid.take canTake
          let yielded2 := st.yielded + newIds.length
          if amount ≠ 0 ∧ amount ≤ yielded2 then
            { st with ids := st.ids ++ newIds, yielded := yielded2,
                      reqIdx := st.reqIdx + 1, done := true }
          else
            let off2 := st.offset + 30
            ids_from_explore amount resp fuel
              { st with ids := st.ids ++ newIds, yielded := yielded2,
                        offset := if 9900 < off2 then 0 else off2,
                        reqIdx := st.reqIdx + 1 }

/-- File-system actions of step 4 of the worker (lines 217-224), in program
order: enter the scratch `TemporaryDirectory`, write `project.json` inside
it, open `ZipFile(out_path, "w")` — which creates the file at the final
session path — write the single entry, close the zip on `with`-exit, and
remove the scratch directory. -/
inductive FsEvent where
  | mkTempDir
  | writeStagedPayload
  | openFinalArchive
  | writeArchiveEntry
  | closeFinalArchive
  | removeTempDir
deriving DecidableEq, BEq, Repr

/-- The trace of file-system actions performed by step 4 of the worker. -/
def step4Events : List FsEvent :=
  [.mkTempDir, .writeStagedPayload, .openFinalArchive, .writeArchiveEntry,
   .closeFinalArchive, .removeTempDir]

/-- After a prefix of the trace, a file exists under the final archive name
iff `ZipFile(out_path, "w")` has been opened. -/
def finalNameVisible (tr : List FsEvent) : Bool := tr.contains .openFinalArchive

/-- After a prefix of the trace, the archive under the final name is complete
iff the zip has been closed (the central directory is written on close). -/
def finalComplete (tr : List FsEvent) : Bool := tr.contains .closeFinalArchive

/-- A partially written file is visible under the final archive name. -/
def incompleteVisible (tr : List FsEvent) : Bool :=
  finalNameVisible tr && !(finalComplete tr)

/-- `ids_from_start(start_id, amount)` (lines 127-137) as an indexed source:
the i-th pull yields `start_id + i`; with `amount = 0` the source is
infinite, otherwise it is exhausted after `amount` pulls. -/
def ids_from_start (startId : Int) (amount : Nat) : Nat → Option Int :=
  fun i => if amount = 0 then some (startId + i) else
           if i < amount then some (startId + i) else none

/-- Python whitespace stripping on a `String` (for file lines). -/
def pyStripChars (s : String) : String :=
  ⟨((s.data.dropWhile (fun c => pyIsSpace c.toNat)).reverse.dropWhile
      (fun c => pyIsSpace c.toNat)).reverse⟩

/-- Numeric value of a list of ASCII digits. -/
def digitsVal (ds : List Char) : Nat :=
  ds.foldl (fun acc c => acc * 10 + (c.toNat - 48)) 0

/-- True when the list is a non-empty run of ASCII digits. -/
def allDigits (ds : List Char) : Bool := !ds.isEmpty && ds.all (fun c => c.isDigit)

/-- Python `int(line)` on a stripped line, for optional sign followed by
ASCII digits; `none` models the `ValueError` on anything else. -/
def pyParseInt (s : String) : Option Int :=
  match s.data with
  | '-' :: ds => if allDigits ds then some (-(digitsVal ds : Int)) else none
  | '+' :: ds => if allDigits ds then some ((digitsVal ds : Int)) else none
  | ds => if allDigits ds then some ((digitsVal ds : Int)) else none

/-- Python `line.startswith("#")`. -/
def startsWithHash (s : String) : Bool :=
  match s.data with
  | c :: _ => c == '#'
  | [] => false

/-- `ids_from_file` (lines 115-124): strip each line, skip blank and `#`
comment lines, yield the parsed integers and skip (log) unparsable lines. -/
def ids_from_file (lines : List String) : List Int :=
  lines.filterMap fun line =>
    let t := pyStripChars line
    if t.isEmpty || startsWithHash t then none
    else pyParseInt t

/-- Terminal outcome of one dispatched task as the orchestrator sees it:
the triple `(ok, row, err)` of the worker result. -/
structure WorkerOutcome where
  ok : Bool
  row : Option MetaRow
  err : Option String
deriving DecidableEq, Repr

/-- Forget the instrumentation of a worker result. -/
def WorkerRes.toOutcome (r : WorkerRes) : WorkerOutcome := ⟨r.ok, r.row, r.err⟩

/-- Configuration of one run of `main`: the id source (the i-th pull),
the outcome of the n-th dispatched task (the environment's behaviour for
that worker invocation), the success target `--amount`, and the raw
`--workers` argument. -/
structure OrchCfg where
  source : Nat → Option Int
  outcomes : Nat → WorkerOutcome
  amount : Nat
  workersArg : Nat

/-- `workers = max(1, min(args.workers, 256))`, line 281. -/
def OrchCfg.workers (c : OrchCfg) : Nat := max 1 (min c.workersArg 256)

/-- `window = max(1, workers * 4)`, line 301. -/
def OrchCfg.window (c : OrchCfg) : Nat := max 1 (c.workers * 4)

/-- State of the orchestrator loop of `main` (lines 299-350).  `snapshot`
holds the futures of the current `as_completed(list(futures.keys()))`
batch; `fresh` the futures submitted after that snapshot was taken; both
carry the dispatch index used to look up each task's outcome.  `pulled`
records every id pulled from the source, in pull order. -/
structure OrchState where
  pullIdx : Nat
  pulled : List Int
  snapshot : List (Nat × Int)
  fresh : List (Nat × Int)
  successes : List Int
  failures : List Int
  rows : List MetaRow
  succCount : Nat
  idExhausted : Bool
  stop : Bool
deriving DecidableEq, Repr

/-- The state before the prefill. -/
def initOrch : OrchState :=
  { pullIdx := 0, pulled := [], snapshot := [], fresh := [], successes := [],
    failures := [], rows := [], succCount := 0, idExhausted := false, stop := false }

/-- `submit_more(n)` (lines 307-318): pull and dispatch up to `n` ids,
stopping early on the stop flag or exhaustion of the source. -/
def submit_more (cfg : OrchCfg) : Nat → OrchState → OrchState
  | 0, st => st
  | n+1, st =>
    if st.stop || st.idExhausted then st
    else
      match cfg.source st.pullIdx with
      | none => { st with idExhausted := true }
      | some pid =>
        submit_more cfg n
          { st with pullIdx := st.pullIdx + 1,
                    pulled := st.pulled ++ [pid],
                    fresh := st.fresh ++ [(st.pullIdx, pid)] }

/-- Number of in-flight futures (the `futures` dict size). -/
def OrchState.inflight (st : OrchState) : Nat := st.snapshot.length + st.fresh.length

/-- A signal arriving sets the stop flag (`handle_sigint`, lines 289-292). -/
def setStopIf (b : Bool) (st : OrchState) : OrchState :=
  if b then { st with stop := true } else st

/-- Lines 327-336: record one completed task in the ledgers; on success the
best-effort row, when present, is appended to the dataset. -/
def recordOutcome (cfg : OrchCfg) (d : Nat) (pid : Int) (st : OrchState) : OrchState :=
  let out := cfg.outcomes d
  if out.ok then
    { st with successes := st.successes ++ [pid],
              rows := st.rows ++ out.row.toList,
              succCount := st.succCount + 1 }
  else
    { st with failures := st.failures ++ [pid] }

/-- Pop the completed future at snapshot position `j` (`futures.pop(f)`)
and record its outcome. -/
def completeTask (cfg : OrchCfg) (j : Nat) (d : Nat) (pid : Int) (st : OrchState) : OrchState :=
  recordOutcome cfg d pid { st with snapshot := st.snapshot.eraseIdx j }

/-- Lines 338-346: unless the stop flag is set or the success target is
reached, and while the source is not exhausted, top the window back up. -/
def maybeRefill (cfg : OrchCfg) (st : OrchState) : OrchState :=
  if st.stop || (decide (cfg.amount ≠ 0) && decide (cfg.amount ≤ st.succCount)) then st
  else if !st.idExhausted then
    submit_more cfg (cfg.window - st.inflight) st
  else st

/-- One iteration of the `for f in as_completed(...)` body (lines 325-346).
`step.1` says whether a signal arrives before this completion is processed;
`step.2` selects (mod the batch size) which future of the snapshot
completes. -/
def processOne (cfg : OrchCfg) (step : Bool × Nat) (st : OrchState) : OrchState :=
  let st1 := setStopIf step.1 st
  match st1.snapshot.get? (step.2 % st1.snapshot.length) with
  | none => st1
  | some (d, pid) =>
    maybeRefill cfg (completeTask cfg (step.2 % st1.snapshot.length) d pid st1)

/-- The whole `for f in as_completed(...)` loop: process completions until
the snapshot is drained, threading the schedule and collecting the state
after each completion.  Callers pass the snapshot length as fuel. -/
def innerLoop (cfg : OrchCfg) :
    Nat → List (Bool × Nat) → OrchState → OrchState × List (Bool × Nat) × List OrchState
  | 0, sched, st => (st, sched, [])
  | fuel+1, sched, st =>
    if st.snapshot.isEmpty then (st, sched, [])
    else
      let st2 := processOne cfg (sched.headD (false, 0)) st
      let r := innerLoop cfg fuel sched.tail st2
      (r.1, r.2.1, st2 :: r.2.2)

/-- `list(futures.keys())` at the head of the `for` statement: the whole
futures dict becomes the new completion snapshot. -/
def takeSnapshot (st : OrchState) : OrchState :=
  { st with snapshot := st.snapshot ++ st.fresh, fresh := [] }

/-- Lines 348-350: if no futures remain but the target is unmet and the
source is not exhausted, refill a full window. -/
def refillIfStarved (cfg : OrchCfg) (st : OrchState) : OrchState :=
  if st.inflight == 0 && !st.idExhausted &&
      (cfg.amount == 0 || decide (st.succCount < cfg.amount)) then
    submit_more cfg cfg.window st
  else st

/-- The `while futures and not stop and (amount == 0 or successes < amount)`
loop (lines 324-350): take a snapshot of the futures dict, drain it, then
refill a full window if the futures dict became empty while the target is
unmet and the source is not exhausted. -/
def outerLoop (cfg : OrchCfg) :
    Nat → List (Bool × Nat) → OrchState → OrchState × List OrchState
  | 0, _, st => (st, [])
  | fuel+1, sched, st =>
    if !(st.inflight == 0) && !st.stop &&
        (cfg.amount == 0 || decide (st.succCount < cfg.amount)) then
      let r2 := innerLoop cfg (takeSnapshot st).snapshot.length sched (takeSnapshot st)
      let st3 := refillIfStarved cfg r2.1
      let r := outerLoop cfg fuel r2.2.1 st3
      (r.1, takeSnapshot st :: (r2.2.2 ++ st3 :: r.2))
    else (st, [])

/-- A whole run of `main` after the source is built: prefill a window
(line 321), then run the consume loop.  Returns the final state and the
trace of intermediate states (the initial prefiled state included). -/
def runOrch (cfg : OrchCfg) (fuel : Nat) (sched : List (Bool × Nat)) :
    OrchState × List OrchState :=
  let st0 := submit_more cfg cfg.window initOrch
  let r := outerLoop cfg fuel sched st0
  (r.1, st0 :: r.2)

/-! ### Helper lemmas: sanitisation and worker rows -/

lemma pyReplace_comma_not_mem (s : String) : ',' ∉ (pyReplace s ',' ' ').data := by
  intro hmem
  simp only [pyReplace, List.mem_map] at hmem
  obtain ⟨a, -, ha⟩ := hmem
  by_cases h : a = ','
  · rw [if_pos h] at ha
    exact absurd ha (by decide)
  · rw [if_neg h] at ha
    exact h ha

lemma mkRow_projectId (pid : Int) (meta : Option RawMeta) (r : MetaRow)
    (h : mkRow pid meta = some r) : r.projectId = pid := by
  cases meta with
  | none => simp [mkRow] at h
  | some m =>
    simp only [mkRow, Option.map_some] at h
    cases h
    rfl

lemma mkRow_comma_free (pid : Int) (meta : Option RawMeta) (r : MetaRow)
    (h : mkRow pid meta = some r) : ',' ∉ r.title.data ∧ ',' ∉ r.author.data := by
  cases meta with
  | none => simp [mkRow] at h
  | some m =>
    simp only [mkRow, Option.map_some] at h
    cases h
    exact ⟨pyReplace_comma_not_mem m.title, pyReplace_comma_not_mem m.author⟩

lemma attemptBody_ok_row (jsonOk : List Nat → Bool) (pid : Int) (spec : AttemptSpec)
    (orow : Option MetaRow) (h : attemptBody jsonOk pid spec = .ok orow) :
    ∃ meta, orow = mkRow pid meta := by
  cases spec with
  | netTimeout m => simp [attemptBody] at h
  | netConnFail m => simp [attemptBody] at h
  | fault m => simp [attemptBody] at h
  | response status raw meta =>
    simp only [attemptBody] at h
    split at h
    · cases h
    · split at h
      · cases h
      · cases h
        exact ⟨meta, rfl⟩

lemma workerAux_row (jsonOk : List Nat → Bool) (script : Nat → AttemptSpec) (pid : Int) :
    ∀ fuel attempt backoff delays lastErr r,
      (workerAux jsonOk script pid fuel attempt backoff delays lastErr).row = some r →
      ∃ meta, some r = mkRow pid meta := by
  intro fuel
  induction fuel with
  | zero => intro attempt backoff delays lastErr r h; simp [workerAux] at h
  | succ fuel ih =>
    intro attempt backoff delays lastErr r h
    simp only [workerAux] at h
    rcases hb : attemptBody jsonOk pid (script attempt) with e | orow
    · rcases e with m | m
      · rw [hb] at h
        by_cases hf : fuel = 0
        · simp [hf] at h
        · simp only [hf, if_false] at h
          exact ih _ _ _ _ r h
      · rw [hb] at h; simp at h
    · rw [hb] at h
      simp only at h
      rw [h] at hb
      exact attemptBody_ok_row jsonOk pid _ _ hb

/-- C10: every dataset row emitted by the worker has its title and author
fields sanitised by replacing commas with spaces, so neither recorded field
ever contains a comma. -/
theorem C10_row_fields_comma_free (jsonOk : List Nat → Bool) (script : Nat → AttemptSpec)
    (pid : Int) (retry : Nat) (r : MetaRow)
    (h : (worker_download_pack jsonOk script pid retry).row = some r) :
    ',' ∉ r.title.data ∧ ',' ∉ r.author.data := by
  obtain ⟨meta, hm⟩ := workerAux_row jsonOk script pid retry 1 (3/4) [] none r h
  exact mkRow_comma_free pid meta r hm.symm

/-- Service behaviour used for the C10 witness: immediate success with
metadata whose title and author contain commas. -/
def c10Script : Nat → AttemptSpec :=
  fun _ => .response 200 [123, 125] (some ⟨"a,b", "c,d", "e", "f", "g", "h"⟩)

/-- Witness for C10 at a concrete run whose remote metadata contains commas. -/
theorem C10_witness :
    ',' ∉ ({ title := "a b", projectId := 5, author := "c d", creation := "e",
             modified := "f", remixParent := "g", remixRoot := "h" } : MetaRow).title.data ∧
    ',' ∉ ({ title := "a b", projectId := 5, author := "c d", creation := "e",
             modified := "f", remixParent := "g", remixRoot := "h" } : MetaRow).author.data :=
  C10_row_fields_comma_free (fun _ => true) c10Script 5 1 _ (by decide)

/-! ### C4: archive creation at the final path is not atomic -/

/-- C4 counterexample: after the third file-system action of the worker's
step 4 (a strict prefix of the trace), a partially written file is visible
under the final archive name, refuting the claimed atomicity. -/
theorem C4_counterexample :
    (step4Events.take 3).length < step4Events.length ∧
    incompleteVisible (step4Events.take 3) = true := by decide

/-- C4 amended: the worker stages the validated payload in the scratch
directory before touching the final path, but then writes the archive
directly at the final session path: an incomplete file is visible under the
final name exactly between the zip open and the zip close (trace prefixes
of length 3 and 4), and the archive is complete from the close onwards. -/
theorem C4_staging_then_direct_write :
    step4Events.indexOf .writeStagedPayload < step4Events.indexOf .openFinalArchive ∧
    (∀ k, k ≤ step4Events.length →
      (incompleteVisible (step4Events.take k) = true ↔ (k = 3 ∨ k = 4))) ∧
    (∀ k, k ≤ step4Events.length →
      (finalComplete (step4Events.take k) = true ↔ 5 ≤ k)) := by decide

/-- Witness for the amended C4 at the prefix of length 3. -/
theorem C4_witness : incompleteVisible (step4Events.take 3) = true :=
  (C4_staging_then_direct_write.2.1 3 (by decide)).mpr (Or.inl rfl)

/-! ### C7: backoff sequence -/

lemma backoffSeq_nonneg (k : Nat) : 0 ≤ backoffSeq k := by
  induction k with
  | zero => norm_num [backoffSeq]
  | succ k ih =>
    rw [backoffSeq]
    exact le_min (by norm_num) (by linarith)

lemma backoffSeq_le_8 (k : Nat) : backoffSeq k ≤ 8 := by
  cases k with
  | zero => norm_num [backoffSeq]
  | succ k => rw [backoffSeq]; exact min_le_left _ _

lemma backoffSeq_mono (k : Nat) : backoffSeq k ≤ backoffSeq (k + 1) := by
  rw [backoffSeq]
  exact le_min (backoffSeq_le_8 k) (by linarith [backoffSeq_nonneg k])

lemma get?_append_singleton {α : Type} (l : List α) (a : α) (i : Nat) (x : α)
    (h : (l ++ [a]).get? i = some x) :
    (i < l.length ∧ l.get? i = some x) ∨ (i = l.length ∧ x = a) := by
  rcases lt_trichotomy i l.length with hlt | heq | hgt
  · left
    refine ⟨hlt, ?_⟩
    rwa [List.get?_append hlt] at h
  · right
    refine ⟨heq, ?_⟩
    subst heq
    rw [List.get?_concat_length] at h
    exact (Option.some_inj.mp h).symm
  · exfalso
    rw [List.get?_eq_none.mpr] at h
    · exact Option.noConfusion h
    · simp only [List.length_append, List.length_singleton]
      omega

/-- The delays performed so far are always a prefix of `backoffSeq`, and the
live backoff variable is the next element: preservation through the worker
retry loop. -/
lemma workerAux_delays (jsonOk : List Nat → Bool) (script : Nat → AttemptSpec) (pid : Int) :
    ∀ fuel attempt backoff delays lastErr,
      backoff = backoffSeq delays.length →
      (∀ i x, delays.get? i = some x → x = backoffSeq i) →
      ∀ i x, (workerAux jsonOk script pid fuel attempt backoff delays lastErr).delays.get? i = some x →
        x = backoffSeq i := by
  intro fuel
  induction fuel with
  | zero => intro attempt backoff delays lastErr _ hd i x h; exact hd i x h
  | succ fuel ih =>
    intro attempt backoff delays lastErr hb hd i x h
    simp only [workerAux] at h
    rcases hab : attemptBody jsonOk pid (script attempt) with e | orow
    · rcases e with m | m
      · rw [hab] at h
        by_cases hf : fuel = 0
        · simp only [hf, if_true] at h
          exact hd i x h
        · simp only [hf, if_false] at h
          refine ih _ _ _ _ ?_ ?_ i x h
          · simp only [List.length_append, List.length_singleton]
            rw [backoffSeq]
            rw [hb]
          · intro j y hy
            rcases get?_append_singleton delays backoff j y hy with ⟨-, h1⟩ | ⟨h1, h2⟩
            · exact hd j y h1
            · rw [h2, h1, hb]
      · rw [hab] at h
        exact hd i x h
    · rw [hab] at h
      exact hd i x h

/-- Preservation of the same prefix property through the explore loop. -/
lemma explore_delays (amount : Nat) (resp : Nat → ExploreResp) :
    ∀ fuel st,
      st.backoff = backoffSeq st.delays.length →
      (∀ i x, st.delays.get? i = some x → x = backoffSeq i) →
      ∀ i x, (ids_from_explore amount resp fuel st).delays.get? i = some x →
        x = backoffSeq i := by
  intro fuel
  induction fuel with
  | zero => intro st _ hd i x h; exact hd i x h
  | succ fuel ih =>
    intro st hb hd i x h
    rw [ids_from_explore] at h
    by_cases hdone : st.done = true
    · rw [if_pos hdone] at h
      exact hd i x h
    · rw [if_neg hdone] at h
      rcases hresp : resp st.reqIdx with m | items
      · simp only [hresp] at h
        refine ih _ ?_ ?_ i x h
        · simp only [List.length_append, List.length_singleton]
          rw [backoffSeq]
          rw [hb]
        · intro j y hy
          rcases get?_append_singleton st.delays st.backoff j y hy with ⟨-, h1⟩ | ⟨h1, h2⟩
          · exact hd j y h1
          · rw [h2, h1, hb]
      · simp only [hresp] at h
        by_cases hemp : items.isEmpty = true
        · rw [if_pos hemp] at h
          refine ih _ ?_ ?_ i x h
          · exact hb
          · exact hd
        · rw [if_neg hemp] at h
          split at h <;> split at h
          · exact hd i x h
          · refine ih _ ?_ ?_ i x h
            · exact hb
            · exact hd
          · exact hd i x h
          · refine ih _ ?_ ?_ i x h
            · exact hb
            · exact hd

/-- Service behaviour for the C7 counterexample: two errors, one good page,
then another error — the backoff keeps its elevated value across the
success. -/
def c7Resp : Nat → ExploreResp :=
  fun n => if n = 2 then .page [some 1] else .err "explore error"

/-- C7 counterexample: (a) with six consecutive transient errors the worker
sleeps 0.75, 1.5, 3, 6, 8 — the fifth delay is the 8-second cap, not the
double (12) of the fourth, so the delays do not double on each successive
error; (b) in the paginated-search source an error following a successful
page sleeps 3 seconds, not 0.75 — the backoff does not restart at 0.75 for
a new run of errors. -/
theorem C7_counterexample :
    (worker_download_pack (fun _ => true) (fun _ => .netTimeout "t") 1 6).delays
      = [3/4, 3/2, 3, 6, 8] ∧
    ¬ ((8 : ℚ) = 2 * 6) ∧
    (ids_from_explore 0 c7Resp 4 exploreInit).delays = [3/4, 3/2, 3] ∧
    ¬ ((3 : ℚ) = 3/4) := by
  refine ⟨?_, by norm_num, ?_, by norm_num⟩
  · norm_num [worker_download_pack, workerAux, attemptBody]
  · norm_num [ids_from_explore, exploreInit, c7Resp]

/-- C7 amended: in both the worker retry loop and the paginated-search
source, the i-th backoff delay of the loop is `backoffSeq i`, a sequence
that starts at 0.75 s, is non-decreasing, never exceeds 8 s, and whose next
value is the minimum of 8 and the double of the previous one (so it doubles
only while below the cap); in the explore source the sequence is indexed by
the total number of errors of the run, since a successful page does not
reset the backoff. -/
theorem C7_backoff_capped_doubling :
    backoffSeq 0 = 3/4 ∧
    (∀ k, backoffSeq (k + 1) = min 8 (backoffSeq k * 2)) ∧
    (∀ k, backoffSeq k ≤ backoffSeq (k + 1)) ∧
    (∀ k, backoffSeq k ≤ 8) ∧
    (∀ jsonOk script pid retry i x,
      (worker_download_pack jsonOk script pid retry).delays.get? i = some x →
      x = backoffSeq i) ∧
    (∀ amount resp fuel i x,
      (ids_from_explore amount resp fuel exploreInit).delays.get? i = some x →
      x = backoffSeq i) := by
  refine ⟨rfl, fun k => rfl, backoffSeq_mono, backoffSeq_le_8, ?_, ?_⟩
  · intro jsonOk script pid retry i x h
    refine workerAux_delays jsonOk script pid retry 1 (3/4) [] none ?_ ?_ i x h
    · rfl
    · intro j y hy
      simp at hy
  · intro amount resp fuel i x h
    refine explore_delays amount resp fuel exploreInit ?_ ?_ i x h
    · rfl
    · intro j y hy
      simp [exploreInit] at hy

/-- Witness for the amended C7: the first recorded delay of a concrete
worker run and of a concrete explore run both equal `backoffSeq 0`. -/
theorem C7_witness :
    (3/4 : ℚ) = backoffSeq 0 ∧ (3/4 : ℚ) = backoffSeq 0 :=
  ⟨C7_backoff_capped_doubling.2.2.2.2.1 (fun _ => true) (fun _ => .netTimeout "t") 1 6 0 (3/4)
      (by norm_num [worker_download_pack, workerAux, attemptBody]),
   C7_backoff_capped_doubling.2.2.2.2.2 0 c7Resp 4 0 (3/4)
      (by norm_num [ids_from_explore, exploreInit, c7Resp])⟩

/-! ### C8: payload decoding and validation -/

lemma pyLstrip_head_not_space :
    ∀ (l : List Nat) (c : Nat) (rest : List Nat),
      pyLstrip l = c :: rest → pyIsSpace c = false := by
  intro l
  induction l with
  | nil => intro c rest h; simp [pyLstrip, List.dropWhile] at h
  | cons a t ih =>
    intro c rest h
    rw [pyLstrip, List.dropWhile_cons] at h
    by_cases hpa : pyIsSpace a = true
    · rw [if_pos hpa] at h
      exact ih c rest h
    · rw [if_neg hpa] at h
      injection h with h1 h2
      subst h1
      revert hpa
      cases pyIsSpace a <;> simp

lemma pyStrip_eq_nil_iff (l : List Nat) : pyStrip l = [] ↔ pyLstrip l = [] := by
  rw [pyStrip, pyLstrip]
  constructor
  · intro h
    rw [List.reverse_eq_nil_iff, List.dropWhile_eq_nil_iff] at h
    cases hd : l.dropWhile pyIsSpace with
    | nil => rfl
    | cons c rest =>
      have hc : pyIsSpace c = false := pyLstrip_head_not_space l c rest hd
      have hcT : pyIsSpace c = true := h c (by rw [hd]; simp)
      rw [hc] at hcT
      cases hcT
  · intro h
    rw [h]
    simp

/-- C8: the worker decodes the fetched bytes as UTF-8 with a latin-1
fallback exactly on decode failure, and accepts the payload iff the first
non-whitespace code point of the decoded text opens an object (123) or an
array (91) and `json.loads` accepts the text; any rejected payload turns
into a `ValueError`, a transient failure of that attempt. -/
theorem C8_payload_validation (jsonOk : List Nat → Bool) (raw : List Nat) :
    (utf8Decode raw = none → decodeBytes raw = latin1Decode raw) ∧
    (∀ t, utf8Decode raw = some t → decodeBytes raw = t) ∧
    ((∃ t, validatePayload jsonOk raw = .ok t) ↔
      ((∃ c rest, pyLstrip (decodeBytes raw) = c :: rest ∧ (c = 123 ∨ c = 91)) ∧
        jsonOk (decodeBytes raw) = true)) ∧
    (∀ t, validatePayload jsonOk raw = .ok t → t = decodeBytes raw) ∧
    (∀ (pid : Int) (meta : Option RawMeta) (m : String),
      validatePayload jsonOk raw = .error m →
      attemptBody jsonOk pid (.response 200 raw meta) = .error (.transient m)) := by
  refine ⟨?_, ?_, ?_, ?_, ?_⟩
  · intro h
    rw [decodeBytes, h]
  · intro t h
    rw [decodeBytes, h]
  · constructor
    · rintro ⟨t, ht⟩
      rw [validatePayload] at ht
      split at ht
      · cases ht
      · next hcond =>
        split at ht
        · next hj =>
          refine ⟨?_, hj⟩
          have hcond2 :
              ((pyStrip (decodeBytes raw)).isEmpty ||
                !((pyLstrip (decodeBytes raw)).take 1 == [123] ||
                  (pyLstrip (decodeBytes raw)).take 1 == [91])) = false := by
            revert hcond
            cases ((pyStrip (decodeBytes raw)).isEmpty ||
                !((pyLstrip (decodeBytes raw)).take 1 == [123] ||
                  (pyLstrip (decodeBytes raw)).take 1 == [91])) <;> simp
          rw [Bool.or_eq_false_iff] at hcond2
          have hB : ((pyLstrip (decodeBytes raw)).take 1 == [123] ||
              (pyLstrip (decodeBytes raw)).take 1 == [91]) = true := by
            have := hcond2.2
            revert this
            cases ((pyLstrip (decodeBytes raw)).take 1 == [123] ||
                (pyLstrip (decodeBytes raw)).take 1 == [91]) <;> simp
          rw [Bool.or_eq_true] at hB
          cases hlst : pyLstrip (decodeBytes raw) with
          | nil =>
            rcases hB with hB | hB <;> rw [hlst] at hB <;> simp at hB
          | cons c rest =>
            refine ⟨c, rest, rfl, ?_⟩
            rcases hB with hB | hB <;> rw [hlst] at hB <;>
              rw [beq_iff_eq] at hB <;> simp at hB
            · exact Or.inl hB
            · exact Or.inr hB
        · cases ht
    · rintro ⟨⟨c, rest, hcr, hc⟩, hj⟩
      rw [validatePayload]
      have hA : (pyStrip (decodeBytes raw)).isEmpty = false := by
        cases hS : pyStrip (decodeBytes raw) with
        | nil =>
          exfalso
          have := (pyStrip_eq_nil_iff (decodeBytes raw)).mp hS
          rw [hcr] at this
          cases this
        | cons a b => rfl
      have hB : ((pyLstrip (decodeBytes raw)).take 1 == [123] ||
          (pyLstrip (decodeBytes raw)).take 1 == [91]) = true := by
        rw [hcr]
        rcases hc with rfl | rfl <;> simp
      rw [hA, hB]
      simp only [Bool.false_or, Bool.not_true, Bool.false_eq_true, if_false]
      rw [hj]
      exact ⟨decodeBytes raw, rfl⟩
  · intro t ht
    rw [validatePayload] at ht
    split at ht
    · cases ht
    · split at ht
      · cases ht
        rfl
      · cases ht
  · intro pid meta m hval
    rw [attemptBody]
    rw [if_neg (by norm_num)]
    rw [hval]

/-- Witness for C8: a payload that is the two bytes of an empty JSON object
is accepted (with `json.loads` accepting everything), and an invalid UTF-8
byte falls back to the latin-1 decoding. -/
theorem C8_witness :
    (∃ t, validatePayload (fun _ => true) [123, 125] = .ok t) ∧
    decodeBytes [255] = latin1Decode [255] :=
  ⟨((C8_payload_validation (fun _ => true) [123, 125]).2.2.1).mpr
      ⟨⟨123, [125], by decide, Or.inl rfl⟩, rfl⟩,
   (C8_payload_validation (fun _ => true) [255]).1 (by decide)⟩

/-! ### C6: retry policy of the worker -/

lemma workerAux_all_transient (jsonOk : List Nat → Bool) (script : Nat → AttemptSpec)
    (pid : Int) :
    ∀ fuel attempt backoff delays lastErr,
      1 ≤ attempt →
      (∀ a, attempt ≤ a → a < attempt + fuel →
        ∃ m, attemptBody jsonOk pid (script a) = .error (.transient m)) →
      ((workerAux jsonOk script pid fuel attempt backoff delays lastErr).ok = false ∧
       (workerAux jsonOk script pid fuel attempt backoff delays lastErr).attempts
         = attempt - 1 + fuel ∧
       ∃ m, (workerAux jsonOk script pid fuel attempt backoff delays lastErr).err = some m) := by
  intro fuel
  induction fuel with
  | zero =>
    intro attempt backoff delays lastErr h1 _
    exact ⟨rfl, rfl, ⟨lastErr.getD "unknown error", rfl⟩⟩
  | succ fuel ih =>
    intro attempt backoff delays lastErr h1 htr
    obtain ⟨m, hm⟩ := htr attempt (le_refl attempt) (by omega)
    by_cases hf : fuel = 0
    · subst hf
      have step0 : workerAux jsonOk script pid 1 attempt backoff delays lastErr
          = ⟨pid, false, none, some m, attempt, delays⟩ := by
        simp [workerAux, hm]
      rw [step0]
      refine ⟨rfl, ?_, ⟨m, rfl⟩⟩
      show attempt = attempt - 1 + (0 + 1)
      omega
    · have step : workerAux jsonOk script pid (fuel + 1) attempt backoff delays lastErr
          = workerAux jsonOk script pid fuel (attempt + 1) (min 8 (backoff * 2))
              (delays ++ [backoff]) (some m) := by
        simp only [workerAux, hm, hf, if_false]
      rw [step]
      obtain ⟨hok, hat, herr⟩ := ih (attempt + 1) (min 8 (backoff * 2))
        (delays ++ [backoff]) (some m) (by omega)
        (fun a ha1 ha2 => htr a (by omega) (by omega))
      exact ⟨hok, by omega, herr⟩

lemma workerAux_fatal (jsonOk : List Nat → Bool) (script : Nat → AttemptSpec) (pid : Int) :
    ∀ fuel attempt backoff delays lastErr k m,
      attempt ≤ k → k < attempt + fuel →
      (∀ a, attempt ≤ a → a < k →
        ∃ m', attemptBody jsonOk pid (script a) = .error (.transient m')) →
      attemptBody jsonOk pid (script k) = .error (.fatal m) →
      ((workerAux jsonOk script pid fuel attempt backoff delays lastErr).ok = false ∧
       (workerAux jsonOk script pid fuel attempt backoff delays lastErr).attempts = k ∧
       (workerAux jsonOk script pid fuel attempt backoff delays lastErr).err = some m) := by
  intro fuel
  induction fuel with
  | zero => intro attempt backoff delays lastErr k m h1 h2 _ _; omega
  | succ fuel ih =>
    intro attempt backoff delays lastErr k m h1 h2 htr hfat
    by_cases hk : k = attempt
    · subst hk
      have step0 : workerAux jsonOk script pid (fuel + 1) k backoff delays lastErr
          = ⟨pid, false, none, some m, k, delays⟩ := by
        simp [workerAux, hfat]
      rw [step0]
      exact ⟨rfl, rfl, rfl⟩
    · have hlt : attempt < k := lt_of_le_of_ne h1 (fun h => hk h.symm)
      obtain ⟨m', hm'⟩ := htr attempt (le_refl attempt) hlt
      have hf : fuel ≠ 0 := by omega
      have step : workerAux jsonOk script pid (fuel + 1) attempt backoff delays lastErr
          = workerAux jsonOk script pid fuel (attempt + 1) (min 8 (backoff * 2))
              (delays ++ [backoff]) (some m') := by
        simp only [workerAux, hm', hf, if_false]
      rw [step]
      exact ih (attempt + 1) (min 8 (backoff * 2)) (delays ++ [backoff]) (some m') k m
        (by omega) (by omega) (fun a ha1 ha2 => htr a (by omega) ha2) hfat

/-- C6: timeouts, connection failures, non-200 statuses and rejected
payloads are all transient — with a script of transient errors the worker
uses exactly its full budget of attempts and then reports a failure with an
error description — while an error outside the transient classes aborts the
task at that very attempt, as a failure, with no further attempt. -/
theorem C6_retry_policy (jsonOk : List Nat → Bool) (script : Nat → AttemptSpec)
    (pid : Int) (retry : Nat) :
    (∀ m, attemptBody jsonOk pid (.netTimeout m) = .error (.transient m)) ∧
    (∀ m, attemptBody jsonOk pid (.netConnFail m) = .error (.transient m)) ∧
    (∀ status raw meta, status ≠ 200 →
      attemptBody jsonOk pid (.response status raw meta)
        = .error (.transient (httpStatusMsg status))) ∧
    (∀ raw meta m, validatePayload jsonOk raw = .error m →
      attemptBody jsonOk pid (.response 200 raw meta) = .error (.transient m)) ∧
    (∀ m, attemptBody jsonOk pid (.fault m) = .error (.fatal m)) ∧
    ((∀ a, 1 ≤ a → a ≤ retry →
        ∃ m, attemptBody jsonOk pid (script a) = .error (.transient m)) →
      ((worker_download_pack jsonOk script pid retry).ok = false ∧
       (worker_download_pack jsonOk script pid retry).attempts = retry ∧
       ∃ m, (worker_download_pack jsonOk script pid retry).err = some m)) ∧
    (∀ k m, 1 ≤ k → k ≤ retry →
      (∀ a, 1 ≤ a → a < k →
        ∃ m', attemptBody jsonOk pid (script a) = .error (.transient m')) →
      attemptBody jsonOk pid (script k) = .error (.fatal m) →
      ((worker_download_pack jsonOk script pid retry).ok = false ∧
       (worker_download_pack jsonOk script pid retry).attempts = k ∧
       (worker_download_pack jsonOk script pid retry).err = some m)) := by
  refine ⟨fun m => rfl, fun m => rfl, ?_, ?_, fun m => rfl, ?_, ?_⟩
  · intro status raw meta hs
    rw [attemptBody, if_pos hs]
  · intro raw meta m hval
    rw [attemptBody, if_neg (by norm_num)]
    rw [hval]
  · intro htr
    have h := workerAux_all_transient jsonOk script pid retry 1 (3/4) [] none (le_refl 1)
      (fun a ha1 ha2 => htr a ha1 (by omega))
    refine ⟨h.1, ?_, h.2.2⟩
    show (workerAux jsonOk script pid retry 1 (3/4) [] none).attempts = retry
    rw [h.2.1]
    omega
  · intro k m hk1 hk2 htr hfat
    exact workerAux_fatal jsonOk script pid retry 1 (3/4) [] none k m hk1 (by omega)
      (fun a ha1 ha2 => htr a ha1 ha2) hfat

/-- Script for the C6 witness: a non-transient fault at the very first
attempt. -/
def c6FaultScript : Nat → AttemptSpec := fun _ => .fault "boom"

/-- Witness for C6: with a budget of 3 attempts, a script of pure timeouts
exhausts all 3 attempts before failing, while a non-transient fault at
attempt 1 fails immediately after 1 attempt. -/
theorem C6_witness :
    ((worker_download_pack (fun _ => true) (fun _ => .netTimeout "t") 1 3).ok = false ∧
     (worker_download_pack (fun _ => true) (fun _ => .netTimeout "t") 1 3).attempts = 3 ∧
     ∃ m, (worker_download_pack (fun _ => true) (fun _ => .netTimeout "t") 1 3).err = some m) ∧
    ((worker_download_pack (fun _ => true) c6FaultScript 1 3).ok = false ∧
     (worker_download_pack (fun _ => true) c6FaultScript 1 3).attempts = 1 ∧
     (worker_download_pack (fun _ => true) c6FaultScript 1 3).err = some "boom") :=
  ⟨(C6_retry_policy (fun _ => true) (fun _ => .netTimeout "t") 1 3).2.2.2.2.2.1
      (fun a _ _ => ⟨"t", rfl⟩),
   (C6_retry_policy (fun _ => true) c6FaultScript 1 3).2.2.2.2.2.2 1 "boom"
      (le_refl 1) (by omega) (fun a ha1 ha2 => absurd ha2 (by omega)) rfl⟩

/-! ### Orchestrator: field bookkeeping lemmas -/

lemma setStopIf_fields (b : Bool) (st : OrchState) :
    (setStopIf b st).pullIdx = st.pullIdx ∧
    (setStopIf b st).pulled = st.pulled ∧
    (setStopIf b st).snapshot = st.snapshot ∧
    (setStopIf b st).fresh = st.fresh ∧
    (setStopIf b st).successes = st.successes ∧
    (setStopIf b st).failures = st.failures ∧
    (setStopIf b st).rows = st.rows ∧
    (setStopIf b st).succCount = st.succCount ∧
    (setStopIf b st).idExhausted = st.idExhausted := by
  rw [setStopIf]
  split <;> exact ⟨rfl, rfl, rfl, rfl, rfl, rfl, rfl, rfl, rfl⟩

lemma recordOutcome_fields (cfg : OrchCfg) (d : Nat) (pid : Int) (st : OrchState) :
    (recordOutcome cfg d pid st).pullIdx = st.pullIdx ∧
    (recordOutcome cfg d pid st).pulled = st.pulled ∧
    (recordOutcome cfg d pid st).snapshot = st.snapshot ∧
    (recordOutcome cfg d pid st).fresh = st.fresh ∧
    (recordOutcome cfg d pid st).idExhausted = st.idExhausted ∧
    (recordOutcome cfg d pid st).stop = st.stop := by
  simp only [recordOutcome]
  split <;> exact ⟨rfl, rfl, rfl, rfl, rfl, rfl⟩

lemma recordOutcome_cases (cfg : OrchCfg) (d : Nat) (pid : Int) (st : OrchState) :
    ((cfg.outcomes d).ok = true ∧
      (recordOutcome cfg d pid st).successes = st.successes ++ [pid] ∧
      (recordOutcome cfg d pid st).failures = st.failures ∧
      (recordOutcome cfg d pid st).rows = st.rows ++ (cfg.outcomes d).row.toList ∧
      (recordOutcome cfg d pid st).succCount = st.succCount + 1) ∨
    ((cfg.outcomes d).ok = false ∧
      (recordOutcome cfg d pid st).successes = st.successes ∧
      (recordOutcome cfg d pid st).failures = st.failures ++ [pid] ∧
      (recordOutcome cfg d pid st).rows = st.rows ∧
      (recordOutcome cfg d pid st).succCount = st.succCount) := by
  simp only [recordOutcome]
  by_cases h : (cfg.outcomes d).ok = true
  · rw [if_pos h]
    exact Or.inl ⟨h, rfl, rfl, rfl, rfl⟩
  · rw [if_neg h]
    refine Or.inr ⟨?_, rfl, rfl, rfl, rfl⟩
    revert h
    cases (cfg.outcomes d).ok <;> simp

lemma submit_more_fields (cfg : OrchCfg) :
    ∀ n st,
      (submit_more cfg n st).snapshot = st.snapshot ∧
      (submit_more cfg n st).successes = st.successes ∧
      (submit_more cfg n st).failures = st.failures ∧
      (submit_more cfg n st).rows = st.rows ∧
      (submit_more cfg n st).succCount = st.succCount ∧
      (submit_more cfg n st).stop = st.stop := by
  intro n
  induction n with
  | zero => intro st; exact ⟨rfl, rfl, rfl, rfl, rfl, rfl⟩
  | succ n ih =>
    intro st
    rw [submit_more]
    split
    · exact ⟨rfl, rfl, rfl, rfl, rfl, rfl⟩
    · rcases hsrc : cfg.source st.pullIdx with - | pid
      · exact ⟨rfl, rfl, rfl, rfl, rfl, rfl⟩
      · exact ih _

lemma submit_more_inflight (cfg : OrchCfg) :
    ∀ n st, (submit_more cfg n st).inflight ≤ st.inflight + n := by
  intro n
  induction n with
  | zero => intro st; simp [submit_more]
  | succ n ih =>
    intro st
    rw [submit_more]
    split
    · omega
    · rcases hsrc : cfg.source st.pullIdx with - | pid
      · simp only [OrchState.inflight]
        omega
      · have := ih { st with pullIdx := st.pullIdx + 1,
                             pulled := st.pulled ++ [pid],
                             fresh := st.fresh ++ [(st.pullIdx, pid)] }
        simp only [OrchState.inflight, List.length_append, List.length_singleton] at this ⊢
        omega

/-- When a stop is already requested or the source is exhausted,
`submit_more` is the identity. -/
lemma submit_more_noop (cfg : OrchCfg) :
    ∀ n st, (st.stop = true ∨ st.idExhausted = true) → submit_more cfg n st = st := by
  intro n
  cases n with
  | zero => intro st _; rfl
  | succ n =>
    intro st h
    rw [submit_more]
    rw [if_pos]
    rcases h with h | h <;> rw [h] <;> simp

/-! ### Generic invariant propagation through the orchestrator loops -/

lemma innerLoop_inv (cfg : OrchCfg) (P : OrchState → Prop)
    (hp : ∀ step st, P st → P (processOne cfg step st)) :
    ∀ fuel sched st, P st →
      P (innerLoop cfg fuel sched st).1 ∧
      ∀ s ∈ (innerLoop cfg fuel sched st).2.2, P s := by
  intro fuel
  induction fuel with
  | zero => intro sched st h; exact ⟨h, by simp [innerLoop]⟩
  | succ fuel ih =>
    intro sched st h
    rw [innerLoop]
    by_cases he : st.snapshot.isEmpty = true
    · rw [if_pos he]
      exact ⟨h, by simp⟩
    · rw [if_neg he]
      have h2 := hp (sched.headD (false, 0)) st h
      obtain ⟨hfin, htr⟩ := ih sched.tail (processOne cfg (sched.headD (false, 0)) st) h2
      refine ⟨hfin, ?_⟩
      intro s hs
      simp only [List.mem_cons] at hs
      rcases hs with rfl | hs
      · exact h2
      · exact htr s hs

lemma refillIfStarved_inv (cfg : OrchCfg) (P : OrchState → Prop)
    (hsub : ∀ n st, P st → P (submit_more cfg n st)) :
    ∀ st, P st → P (refillIfStarved cfg st) := by
  intro st h
  rw [refillIfStarved]
  split
  · exact hsub _ _ h
  · exact h

lemma outerLoop_inv (cfg : OrchCfg) (P : OrchState → Prop)
    (hp : ∀ step st, P st → P (processOne cfg step st))
    (hrefill : ∀ st, P st → P (refillIfStarved cfg st))
    (hsnap : ∀ st, P st → P (takeSnapshot st)) :
    ∀ fuel sched st, P st →
      P (outerLoop cfg fuel sched st).1 ∧
      ∀ s ∈ (outerLoop cfg fuel sched st).2, P s := by
  intro fuel
  induction fuel with
  | zero => intro sched st h; exact ⟨h, by simp [outerLoop]⟩
  | succ fuel ih =>
    intro sched st h
    rw [outerLoop]
    by_cases hcond : (!(st.inflight == 0) && !st.stop &&
        (cfg.amount == 0 || decide (st.succCount < cfg.amount))) = true
    · rw [if_pos hcond]
      have h1 : P (takeSnapshot st) := hsnap st h
      obtain ⟨h2, htr2⟩ := innerLoop_inv cfg P hp
        (takeSnapshot st).snapshot.length sched (takeSnapshot st) h1
      have h3 : P (refillIfStarved cfg
          (innerLoop cfg (takeSnapshot st).snapshot.length sched (takeSnapshot st)).1) :=
        hrefill _ h2
      obtain ⟨h4, htr4⟩ := ih
        (innerLoop cfg (takeSnapshot st).snapshot.length sched (takeSnapshot st)).2.1
        (refillIfStarved cfg
          (innerLoop cfg (takeSnapshot st).snapshot.length sched (takeSnapshot st)).1) h3
      refine ⟨h4, ?_⟩
      intro s hs
      simp only [List.mem_cons, List.mem_append] at hs
      rcases hs with rfl | hs | rfl | hs
      · exact h1
      · exact htr2 s hs
      · exact h3
      · exact htr4 s hs
    · rw [if_neg hcond]
      exact ⟨h, by simp⟩

lemma runOrch_inv (cfg : OrchCfg) (P : OrchState → Prop)
    (hp : ∀ step st, P st → P (processOne cfg step st))
    (hrefill : ∀ st, P st → P (refillIfStarved cfg st))
    (hsnap : ∀ st, P st → P (takeSnapshot st))
    (h0 : P (submit_more cfg cfg.window initOrch)) :
    ∀ fuel sched, P (runOrch cfg fuel sched).1 ∧
      ∀ s ∈ (runOrch cfg fuel sched).2, P s := by
  intro fuel sched
  obtain ⟨h1, htr⟩ := outerLoop_inv cfg P hp hrefill hsnap fuel sched _ h0
  refine ⟨h1, ?_⟩
  intro s hs
  simp only [runOrch, List.mem_cons] at hs
  rcases hs with rfl | hs
  · exact h0
  · exact htr s hs

/-- Every `processOne` application is either a pure stop-flag update (empty
snapshot) or a completion followed by a conditional refill. -/
lemma processOne_cases (cfg : OrchCfg) (step : Bool × Nat) (st : OrchState) :
    ((setStopIf step.1 st).snapshot.get?
        (step.2 % (setStopIf step.1 st).snapshot.length) = none ∧
      processOne cfg step st = setStopIf step.1 st) ∨
    ∃ j d pid, j = step.2 % (setStopIf step.1 st).snapshot.length ∧
      (setStopIf step.1 st).snapshot.get? j = some (d, pid) ∧
      processOne cfg step st = maybeRefill cfg (completeTask cfg j d pid (setStopIf step.1 st)) := by
  rw [processOne]
  split
  · next heq => exact Or.inl ⟨heq, rfl⟩
  · next d pid heq =>
    exact Or.inr ⟨_, d, pid, rfl, heq, rfl⟩

lemma completeTask_fields (cfg : OrchCfg) (j d : Nat) (pid : Int) (st : OrchState) :
    (completeTask cfg j d pid st).pullIdx = st.pullIdx ∧
    (completeTask cfg j d pid st).pulled = st.pulled ∧
    (completeTask cfg j d pid st).snapshot = st.snapshot.eraseIdx j ∧
    (completeTask cfg j d pid st).fresh = st.fresh ∧
    (completeTask cfg j d pid st).idExhausted = st.idExhausted ∧
    (completeTask cfg j d pid st).stop = st.stop := by
  have h := recordOutcome_fields cfg d pid { st with snapshot := st.snapshot.eraseIdx j }
  exact ⟨h.1, h.2.1, h.2.2.1, h.2.2.2.1, h.2.2.2.2.1, h.2.2.2.2.2⟩

lemma maybeRefill_inv (cfg : OrchCfg) (P : OrchState → Prop)
    (hsub : ∀ n st, P st → P (submit_more cfg n st)) :
    ∀ st, P st → P (maybeRefill cfg st) := by
  intro st h
  rw [maybeRefill]
  split
  · exact h
  · split
    · exact hsub _ _ h
    · exact h

/-! ### C5: window bound on in-flight tasks -/

lemma window_eq (cfg : OrchCfg) : cfg.window = 4 * cfg.workers := by
  rw [OrchCfg.window, OrchCfg.workers]
  omega

lemma setStopIf_inflight (b : Bool) (st : OrchState) :
    (setStopIf b st).inflight = st.inflight := by
  have h := setStopIf_fields b st
  rw [OrchState.inflight, OrchState.inflight, h.2.2.1, h.2.2.2.1]

lemma processOne_window (cfg : OrchCfg) (step : Bool × Nat) (st : OrchState)
    (h : st.inflight ≤ cfg.window) : (processOne cfg step st).inflight ≤ cfg.window := by
  rcases processOne_cases cfg step st with ⟨-, hc⟩ | ⟨j, d, pid, hj, hget, hc⟩
  · rw [hc, setStopIf_inflight]
    exact h
  · rw [hc]
    have hjlt : j < (setStopIf step.1 st).snapshot.length := by
      rcases List.get?_eq_some.mp hget with ⟨hlt, -⟩
      exact hlt
    have hlen : ((setStopIf step.1 st).snapshot.eraseIdx j).length + 1
        = (setStopIf step.1 st).snapshot.length :=
      List.length_eraseIdx_add_one hjlt
    have hcf := completeTask_fields cfg j d pid (setStopIf step.1 st)
    have hinf : (completeTask cfg j d pid (setStopIf step.1 st)).inflight ≤ cfg.window := by
      rw [OrchState.inflight, hcf.2.2.1, hcf.2.2.2.1]
      have h1 := setStopIf_inflight step.1 st
      simp only [OrchState.inflight] at h1 h
      omega
    rw [maybeRefill]
    split
    · exact hinf
    · split
      · have := submit_more_inflight cfg
          (cfg.window - (completeTask cfg j d pid (setStopIf step.1 st)).inflight)
          (completeTask cfg j d pid (setStopIf step.1 st))
        omega
      · exact hinf

lemma takeSnapshot_inflight (st : OrchState) :
    (takeSnapshot st).inflight = st.inflight := by
  rw [takeSnapshot, OrchState.inflight, OrchState.inflight]
  simp only [List.length_append, List.length_nil]
  omega

/-- C5: at every point of every run, in particular in every steady state
(stop flag unset, source not exhausted), the number of in-flight dispatched
tasks never exceeds 4 times the clamped worker pool size. -/
theorem C5_window_invariant (cfg : OrchCfg) (fuel : Nat) (sched : List (Bool × Nat))
    (st : OrchState) (hst : st ∈ (runOrch cfg fuel sched).2)
    (hstop : st.stop = false) (hexh : st.idExhausted = false) :
    st.inflight ≤ 4 * cfg.workers := by
  rw [← window_eq]
  have hinv := runOrch_inv cfg (fun s => s.inflight ≤ cfg.window)
    (fun step s hs => processOne_window cfg step s hs)
    (fun s hs => by
      rw [refillIfStarved]
      split
      · next hcond =>
        simp only [Bool.and_eq_true, beq_iff_eq] at hcond
        have := submit_more_inflight cfg cfg.window s
        omega
      · exact hs)
    (fun s hs => by
      show (takeSnapshot s).inflight ≤ cfg.window
      rw [takeSnapshot_inflight]
      exact hs)
    (by
      have := submit_more_inflight cfg cfg.window initOrch
      have h0 : initOrch.inflight = 0 := rfl
      omega)
    fuel sched
  exact hinv.2 st hst

/-- Run configuration for the C5 witness: unbounded sequential source,
every task succeeds. -/
def c5Cfg : OrchCfg :=
  { source := ids_from_start 1 0,
    outcomes := fun _ => ⟨true, none, none⟩,
    amount := 0, workersArg := 1 }

/-- Witness for C5: the prefilled initial state of a concrete run is in
steady state and respects the window bound. -/
theorem C5_witness :
    ((runOrch c5Cfg 0 []).2.getD 0 initOrch).inflight ≤ 4 * c5Cfg.workers :=
  C5_window_invariant c5Cfg 0 [] ((runOrch c5Cfg 0 []).2.getD 0 initOrch)
    (by decide) (by decide) (by decide)

/-! ### C9: dataset rows are a subset of the success ledger -/

lemma perm_get_cons_eraseIdx {α : Type} (l : List α) (j : Nat) (hj : j < l.length) :
    l.Perm (l.get ⟨j, hj⟩ :: l.eraseIdx j) := by
  conv_lhs => rw [← List.take_append_drop j l]
  rw [List.eraseIdx_eq_take_drop_succ]
  have hd : l.drop j = l.get ⟨j, hj⟩ :: l.drop (j + 1) := by
    rw [List.drop_eq_getElem_cons hj]
    rfl
  rw [hd]
  exact List.perm_middle

lemma mem_of_mem_eraseIdx {α : Type} {l : List α} {j : Nat} {x : α}
    (hj : j < l.length) (h : x ∈ l.eraseIdx j) : x ∈ l :=
  (perm_get_cons_eraseIdx l j hj).mem_iff.mpr (List.mem_cons_of_mem _ h)

/-- Rows recorded so far number at most the successes, and each row's id is
in the success ledger. -/
def rowInv (st : OrchState) : Prop :=
  st.rows.length ≤ st.successes.length ∧ ∀ r ∈ st.rows, r.projectId ∈ st.successes

/-- Every in-flight future's id is the value the source produced at its
dispatch index. -/
def srcInv (cfg : OrchCfg) (st : OrchState) : Prop :=
  ∀ dp ∈ st.snapshot ++ st.fresh, cfg.source dp.1 = some dp.2

lemma submit_more_srcInv (cfg : OrchCfg) :
    ∀ n st, srcInv cfg st → srcInv cfg (submit_more cfg n st) := by
  intro n
  induction n with
  | zero => intro st h; exact h
  | succ n ih =>
    intro st h
    rw [submit_more]
    split
    · exact h
    · rcases hsrc : cfg.source st.pullIdx with - | pid
      · exact h
      · refine ih _ ?_
        intro dp hdp
        rcases List.mem_append.mp hdp with hdp | hdp
        · exact h dp (List.mem_append.mpr (Or.inl hdp))
        · rcases List.mem_append.mp hdp with hdp | hdp
          · exact h dp (List.mem_append.mpr (Or.inr hdp))
          · rw [List.mem_singleton] at hdp
            subst hdp
            exact hsrc

lemma setStopIf_rowSrcInv (cfg : OrchCfg) (b : Bool) (st : OrchState)
    (h : rowInv st ∧ srcInv cfg st) :
    rowInv (setStopIf b st) ∧ srcInv cfg (setStopIf b st) := by
  rw [setStopIf]
  split
  · exact h
  · exact h

lemma completeTask_rowSrcInv (cfg : OrchCfg)
    (HR : ∀ d p r, cfg.source d = some p → (cfg.outcomes d).row = some r →
      r.projectId = p)
    (j d : Nat) (pid : Int) (st : OrchState)
    (hget : st.snapshot.get? j = some (d, pid))
    (h : rowInv st ∧ srcInv cfg st) :
    rowInv (completeTask cfg j d pid st) ∧ srcInv cfg (completeTask cfg j d pid st) := by
  have hjlt : j < st.snapshot.length := by
    rcases List.get?_eq_some.mp hget with ⟨hlt, -⟩
    exact hlt
  have hmem : (d, pid) ∈ st.snapshot := List.get?_mem hget
  have hsrc_d : cfg.source d = some pid :=
    h.2 (d, pid) (List.mem_append.mpr (Or.inl hmem))
  have hcf := completeTask_fields cfg j d pid st
  constructor
  · rcases recordOutcome_cases cfg d pid { st with snapshot := st.snapshot.eraseIdx j } with
      ⟨hok, hs, hfail, hrows, hsc⟩ | ⟨hok, hs, hfail, hrows, hsc⟩
    · constructor
      · show (completeTask cfg j d pid st).rows.length ≤ _
        rw [completeTask, hrows, hs]
        simp only [List.length_append]
        have htl : (cfg.outcomes d).row.toList.length ≤ 1 := by
          cases (cfg.outcomes d).row <;> simp
        have := h.1.1
        simp only [List.length_singleton]
        omega
      · intro r hr
        rw [completeTask, hrows] at hr
        rw [completeTask, hs]
        rcases List.mem_append.mp hr with hr | hr
        · exact List.mem_append.mpr (Or.inl (h.1.2 r hr))
        · have hrow : (cfg.outcomes d).row = some r := by
            cases hrowv : (cfg.outcomes d).row with
            | none => rw [hrowv] at hr; cases hr
            | some r2 =>
              rw [hrowv] at hr
              simp only [Option.toList_some, List.mem_singleton] at hr
              subst hr
              rfl
          rw [HR d pid r hsrc_d hrow]
          exact List.mem_append.mpr (Or.inr (List.mem_singleton.mpr rfl))
    · constructor
      · show (completeTask cfg j d pid st).rows.length ≤ _
        rw [completeTask, hrows, hs]
        exact h.1.1
      · intro r hr
        rw [completeTask, hrows] at hr
        rw [completeTask, hs]
        exact h.1.2 r hr
  · intro dp hdp
    rw [hcf.2.2.1, hcf.2.2.2.1] at hdp
    rcases List.mem_append.mp hdp with hdp | hdp
    · exact h.2 dp (List.mem_append.mpr (Or.inl (mem_of_mem_eraseIdx hjlt hdp)))
    · exact h.2 dp (List.mem_append.mpr (Or.inr hdp))

lemma submit_more_rowSrcInv (cfg : OrchCfg) (n : Nat) (st : OrchState)
    (hs : rowInv st ∧ srcInv cfg st) :
    rowInv (submit_more cfg n st) ∧ srcInv cfg (submit_more cfg n st) := by
  have hf := submit_more_fields cfg n st
  refine ⟨⟨?_, ?_⟩, submit_more_srcInv cfg n st hs.2⟩
  · rw [hf.2.2.2.1, hf.2.1]
    exact hs.1.1
  · rw [hf.2.2.2.1, hf.2.1]
    exact hs.1.2

lemma takeSnapshot_rowSrcInv (cfg : OrchCfg) (st : OrchState)
    (hs : rowInv st ∧ srcInv cfg st) :
    rowInv (takeSnapshot st) ∧ srcInv cfg (takeSnapshot st) := by
  refine ⟨hs.1, ?_⟩
  intro dp hdp
  have heq : (takeSnapshot st).snapshot ++ (takeSnapshot st).fresh
      = (st.snapshot ++ st.fresh) ++ [] := rfl
  rw [heq, List.append_nil] at hdp
  exact hs.2 dp hdp

lemma processOne_rowSrcInv (cfg : OrchCfg)
    (HR : ∀ d p r, cfg.source d = some p → (cfg.outcomes d).row = some r →
      r.projectId = p)
    (step : Bool × Nat) (st : OrchState)
    (h : rowInv st ∧ srcInv cfg st) :
    rowInv (processOne cfg step st) ∧ srcInv cfg (processOne cfg step st) := by
  rcases processOne_cases cfg step st with ⟨-, hc⟩ | ⟨j, d, pid, hj, hget, hc⟩
  · rw [hc]
    exact setStopIf_rowSrcInv cfg step.1 st h
  · rw [hc]
    have h1 := setStopIf_rowSrcInv cfg step.1 st h
    have h2 := completeTask_rowSrcInv cfg HR j d pid (setStopIf step.1 st) hget h1
    exact maybeRefill_inv cfg (fun s => rowInv s ∧ srcInv cfg s)
      (fun n s hs => submit_more_rowSrcInv cfg n s hs) _ h2

lemma worker_row_pid (jsonOk : List Nat → Bool) (script : Nat → AttemptSpec)
    (pid : Int) (retry : Nat) (r : MetaRow)
    (h : (worker_download_pack jsonOk script pid retry).row = some r) :
    r.projectId = pid := by
  obtain ⟨meta, hm⟩ := workerAux_row jsonOk script pid retry 1 (3/4) [] none r h
  exact mkRow_projectId pid meta r hm.symm

/-- C9: at every point of every run whose outcomes carry rows tagged with
the id the source produced for their dispatch index (which the worker
guarantees: its rows carry its own project id), the dataset rows number at
most the success-ledger entries and every row's id is in the success
ledger; an `ok` outcome without a row appends a success-ledger entry and no
dataset row. -/
theorem C9_rows_subset_success (cfg : OrchCfg) (fuel : Nat) (sched : List (Bool × Nat))
    (HR : ∀ d p r, cfg.source d = some p → (cfg.outcomes d).row = some r →
      r.projectId = p)
    (st : OrchState) (hst : st ∈ (runOrch cfg fuel sched).2) :
    (st.rows.length ≤ st.successes.length ∧
      ∀ r ∈ st.rows, r.projectId ∈ st.successes) ∧
    (∀ (d : Nat) (pid : Int) (s : OrchState),
      (cfg.outcomes d).ok = true → (cfg.outcomes d).row = none →
      (recordOutcome cfg d pid s).successes = s.successes ++ [pid] ∧
      (recordOutcome cfg d pid s).rows = s.rows) ∧
    (∀ jsonOk script pid retry r,
      (worker_download_pack jsonOk script pid retry).row = some r →
      r.projectId = pid) := by
  refine ⟨?_, ?_, worker_row_pid⟩
  · have hinit : rowInv initOrch ∧ srcInv cfg initOrch :=
      ⟨⟨Nat.le_refl 0, fun r hr => absurd hr (List.not_mem_nil r)⟩,
        fun dp hdp => absurd hdp (List.not_mem_nil dp)⟩
    have hinv := runOrch_inv cfg (fun s => rowInv s ∧ srcInv cfg s)
      (processOne_rowSrcInv cfg HR)
      (refillIfStarved_inv cfg _ (fun n s hs => submit_more_rowSrcInv cfg n s hs))
      (fun s hs => takeSnapshot_rowSrcInv cfg s hs)
      (submit_more_rowSrcInv cfg cfg.window initOrch hinit) fuel sched
    exact (hinv.2 st hst).1
  · intro d pid s hok hrow
    rcases recordOutcome_cases cfg d pid s with ⟨-, hs, -, hrows, -⟩ | ⟨hok2, -, -, -, -⟩
    · refine ⟨hs, ?_⟩
      rw [hrows, hrow]
      simp
    · rw [hok] at hok2
      cases hok2

/-- Run configuration for the C9 witness. -/
def c9Cfg : OrchCfg :=
  { source := ids_from_start 1 0,
    outcomes := fun _ => ⟨true, none, none⟩,
    amount := 0, workersArg := 1 }

/-- Witness for C9 at a concrete one-batch run. -/
theorem C9_witness :
    ((runOrch c9Cfg 1 [(false, 0)]).2.getD 0 initOrch).rows.length ≤
      ((runOrch c9Cfg 1 [(false, 0)]).2.getD 0 initOrch).successes.length :=
  (C9_rows_subset_success c9Cfg 1 [(false, 0)]
    (fun d p r _ h2 => by cases h2)
    ((runOrch c9Cfg 1 [(false, 0)]).2.getD 0 initOrch) (by decide)).1.1

/-! ### C2: pulls, ledgers and their disjointness -/

/-- The pulled list is exactly the defined prefix of the source. -/
def pulledSpec (cfg : OrchCfg) (st : OrchState) : Prop :=
  st.pulled.length = st.pullIdx ∧
  ∀ i x, st.pulled.get? i = some x → cfg.source i = some x

/-- Conservation of ids: ledger entries plus in-flight ids account exactly
for the pulled ids, with multiplicity. -/
def countInv (st : OrchState) : Prop :=
  ∀ x : Int,
    st.successes.count x + st.failures.count x +
      (((st.snapshot ++ st.fresh).map Prod.snd).count x) = st.pulled.count x

lemma completeTask_cases (cfg : OrchCfg) (j d : Nat) (pid : Int) (st : OrchState) :
    ((cfg.outcomes d).ok = true ∧
      (completeTask cfg j d pid st).successes = st.successes ++ [pid] ∧
      (completeTask cfg j d pid st).failures = st.failures ∧
      (completeTask cfg j d pid st).rows = st.rows ++ (cfg.outcomes d).row.toList ∧
      (completeTask cfg j d pid st).succCount = st.succCount + 1) ∨
    ((cfg.outcomes d).ok = false ∧
      (completeTask cfg j d pid st).successes = st.successes ∧
      (completeTask cfg j d pid st).failures = st.failures ++ [pid] ∧
      (completeTask cfg j d pid st).rows = st.rows ∧
      (completeTask cfg j d pid st).succCount = st.succCount) :=
  recordOutcome_cases cfg d pid { st with snapshot := st.snapshot.eraseIdx j }

lemma submit_more_pullCount (cfg : OrchCfg) :
    ∀ n st, pulledSpec cfg st ∧ countInv st →
      pulledSpec cfg (submit_more cfg n st) ∧ countInv (submit_more cfg n st) := by
  intro n
  induction n with
  | zero => exact fun st h => h
  | succ n ih =>
    intro st h
    rw [submit_more]
    split
    · exact h
    · rcases hsrc : cfg.source st.pullIdx with - | pid
      · exact h
      · refine ih _ ⟨⟨?_, ?_⟩, ?_⟩
        · simp only [List.length_append, List.length_singleton]
          have := h.1.1
          omega
        · intro i x hx
          rcases get?_append_singleton st.pulled pid i x hx with ⟨-, h1⟩ | ⟨h1, h2⟩
          · exact h.1.2 i x h1
          · subst h2
            rw [h1, h.1.1]
            exact hsrc
        · intro x
          have hc := h.2 x
          simp only [List.map_append, List.count_append] at hc ⊢
          have hmap : (([(st.pullIdx, pid)] : List (Nat × Int)).map Prod.snd) = [pid] := rfl
          rw [hmap]
          omega

lemma setStopIf_pullCount (cfg : OrchCfg) (b : Bool) (st : OrchState)
    (h : pulledSpec cfg st ∧ countInv st) :
    pulledSpec cfg (setStopIf b st) ∧ countInv (setStopIf b st) := by
  rw [setStopIf]
  split
  · exact h
  · exact h

lemma completeTask_pullCount (cfg : OrchCfg) (j d : Nat) (pid : Int) (st : OrchState)
    (hget : st.snapshot.get? j = some (d, pid))
    (h : pulledSpec cfg st ∧ countInv st) :
    pulledSpec cfg (completeTask cfg j d pid st) ∧
      countInv (completeTask cfg j d pid st) := by
  rcases List.get?_eq_some.mp hget with ⟨hjlt, hgeteq⟩
  have hperm : st.snapshot.Perm ((d, pid) :: st.snapshot.eraseIdx j) := by
    have hp := perm_get_cons_eraseIdx st.snapshot j hjlt
    rwa [hgeteq] at hp
  have hcf := completeTask_fields cfg j d pid st
  refine ⟨⟨?_, ?_⟩, ?_⟩
  · rw [hcf.2.1, hcf.1]
    exact h.1.1
  · intro i x hx
    rw [hcf.2.1] at hx
    exact h.1.2 i x hx
  · intro x
    have hc := h.2 x
    simp only [List.map_append, List.count_append] at hc
    have hS := (hperm.map Prod.snd).count_eq x
    have hcons : (((d, pid) :: st.snapshot.eraseIdx j).map Prod.snd)
        = [pid] ++ (st.snapshot.eraseIdx j).map Prod.snd := rfl
    rw [hcons, List.count_append] at hS
    rw [hcf.2.1]
    rcases completeTask_cases cfg j d pid st with
      ⟨-, hs, hf2, -, -⟩ | ⟨-, hs, hf2, -, -⟩ <;>
      rw [hs, hf2, hcf.2.2.1, hcf.2.2.2.1] <;>
      simp only [List.map_append, List.count_append] <;>
      omega

lemma processOne_pullCount (cfg : OrchCfg) (step : Bool × Nat) (st : OrchState)
    (h : pulledSpec cfg st ∧ countInv st) :
    pulledSpec cfg (processOne cfg step st) ∧ countInv (processOne cfg step st) := by
  rcases processOne_cases cfg step st with ⟨-, hc⟩ | ⟨j, d, pid, hj, hget, hc⟩
  · rw [hc]
    exact setStopIf_pullCount cfg step.1 st h
  · rw [hc]
    have h1 := setStopIf_pullCount cfg step.1 st h
    have h2 := completeTask_pullCount cfg j d pid (setStopIf step.1 st) hget h1
    exact maybeRefill_inv cfg (fun s => pulledSpec cfg s ∧ countInv s)
      (fun n s hs => submit_more_pullCount cfg n s hs) _ h2

lemma takeSnapshot_pullCount (cfg : OrchCfg) (st : OrchState)
    (h : pulledSpec cfg st ∧ countInv st) :
    pulledSpec cfg (takeSnapshot st) ∧ countInv (takeSnapshot st) := by
  refine ⟨h.1, ?_⟩
  intro x
  have hc := h.2 x
  have heq : ((takeSnapshot st).snapshot ++ (takeSnapshot st).fresh)
      = (st.snapshot ++ st.fresh) ++ [] := rfl
  show (takeSnapshot st).successes.count x + (takeSnapshot st).failures.count x +
      (((takeSnapshot st).snapshot ++ (takeSnapshot st).fresh).map Prod.snd).count x
      = (takeSnapshot st).pulled.count x
  rw [heq, List.append_nil]
  exact hc

lemma ids_from_start_inj (startId : Int) (amount : Nat) :
    ∀ i j x, ids_from_start startId amount i = some x →
      ids_from_start startId amount j = some x → i = j := by
  intro i j x h1 h2
  simp only [ids_from_start] at h1 h2
  by_cases ha : amount = 0
  · rw [if_pos ha] at h1 h2
    have e1 := Option.some_inj.mp h1
    have e2 := Option.some_inj.mp h2
    omega
  · rw [if_neg ha] at h1 h2
    by_cases hi : i < amount
    · rw [if_pos hi] at h1
      by_cases hj : j < amount
      · rw [if_pos hj] at h2
        have e1 := Option.some_inj.mp h1
        have e2 := Option.some_inj.mp h2
        omega
      · rw [if_neg hj] at h2
        cases h2
    · rw [if_neg hi] at h1
      cases h1

/-- C2 amended: the orchestrator itself never re-pulls — ledger entries and
in-flight ids account exactly for the pulled prefix of the source — so for
any source that never repeats a value (in particular the sequential
source), every id is pulled at most once, both ledgers are duplicate-free,
and the two ledgers are disjoint, for every schedule and outcome
assignment. -/
theorem C2_single_pull_disjoint_ledgers (cfg : OrchCfg) (fuel : Nat)
    (sched : List (Bool × Nat))
    (Hinj : ∀ i j x, cfg.source i = some x → cfg.source j = some x → i = j)
    (st : OrchState) (hst : st ∈ (runOrch cfg fuel sched).2) :
    st.pulled.Nodup ∧ st.successes.Nodup ∧ st.failures.Nodup ∧
    (∀ x ∈ st.successes, x ∉ st.failures) ∧
    (∀ startId amount i j x, ids_from_start startId amount i = some x →
      ids_from_start startId amount j = some x → i = j) := by
  have hinit : pulledSpec cfg initOrch ∧ countInv initOrch := by
    refine ⟨⟨rfl, ?_⟩, ?_⟩
    · intro i x hx
      rw [List.get?_eq_none.mpr (by simp [initOrch])] at hx
      cases hx
    · intro x
      rfl
  have hinv := runOrch_inv cfg (fun s => pulledSpec cfg s ∧ countInv s)
    (processOne_pullCount cfg)
    (refillIfStarved_inv cfg _ (fun n s hs => submit_more_pullCount cfg n s hs))
    (takeSnapshot_pullCount cfg)
    (submit_more_pullCount cfg cfg.window initOrch hinit) fuel sched
  obtain ⟨hps, hcount⟩ := hinv.2 st hst
  have hnd : st.pulled.Nodup := by
    rw [List.nodup_iff_injective_get]
    intro a b hab
    have ha := hps.2 a.1 (st.pulled.get a) (List.get?_eq_get a.2)
    have hb := hps.2 b.1 (st.pulled.get b) (List.get?_eq_get b.2)
    rw [hab] at ha
    have := Hinj a.1 b.1 (st.pulled.get b) ha hb
    exact Fin.ext this
  have hcount1 : ∀ x : Int, st.pulled.count x ≤ 1 :=
    List.nodup_iff_count_le_one.mp hnd
  have hkey : ∀ x : Int, st.successes.count x + st.failures.count x ≤ 1 := by
    intro x
    have := hcount x
    have := hcount1 x
    omega
  refine ⟨hnd, ?_, ?_, ?_, ids_from_start_inj⟩
  · rw [List.nodup_iff_count_le_one]
    intro x
    have := hkey x
    omega
  · rw [List.nodup_iff_count_le_one]
    intro x
    have := hkey x
    omega
  · intro x hx
    have hpos : 0 < st.successes.count x := List.count_pos_iff.mpr hx
    have := hkey x
    rw [← List.count_pos_iff]
    omega

/-- Run configuration for the C2 witness: a bounded sequential source whose
values never repeat. -/
def c2wCfg : OrchCfg :=
  { source := ids_from_start 100 2,
    outcomes := fun _ => ⟨true, none, none⟩,
    amount := 0, workersArg := 1 }

/-- Witness for the amended C2 at a concrete sequential run. -/
theorem C2_witness :
    ((runOrch c2wCfg 1 [(false, 0), (false, 0)]).2.getD 0 initOrch).pulled.Nodup ∧
    (∀ x ∈ ((runOrch c2wCfg 1 [(false, 0), (false, 0)]).2.getD 0 initOrch).successes,
      x ∉ ((runOrch c2wCfg 1 [(false, 0), (false, 0)]).2.getD 0 initOrch).failures) := by
  have h := C2_single_pull_disjoint_ledgers c2wCfg 1 [(false, 0), (false, 0)]
    (ids_from_start_inj 100 2)
    ((runOrch c2wCfg 1 [(false, 0), (false, 0)]).2.getD 0 initOrch) (by decide)
  exact ⟨h.1, h.2.2.2.1⟩

/-- Run configuration refuting C2 as stated: a file-based source whose file
lists the same id twice; the first invocation fails, the second succeeds. -/
def c2Cfg : OrchCfg :=
  { source := fun i => (ids_from_file ["7", "7"]).get? i,
    outcomes := fun d => if d = 0 then ⟨false, none, some "HTTP 404"⟩ else ⟨true, none, none⟩,
    amount := 0, workersArg := 1 }

/-- C2 counterexample: with the file-based source reading a file whose two
lines both say `7`, the id 7 is pulled twice, and (failing once, succeeding
once) ends up in both the failure and the success ledger — the ledgers are
not disjoint and the id is not pulled at most once. -/
theorem C2_counterexample :
    (runOrch c2Cfg 2 [(false, 0), (false, 0)]).1.pulled = [7, 7] ∧
    (runOrch c2Cfg 2 [(false, 0), (false, 0)]).1.pulled.count 7 = 2 ∧
    (7 : Int) ∈ (runOrch c2Cfg 2 [(false, 0), (false, 0)]).1.successes ∧
    (7 : Int) ∈ (runOrch c2Cfg 2 [(false, 0), (false, 0)]).1.failures := by decide

/-! ### C3: behaviour after the stop flag is set -/

lemma maybeRefill_fields (cfg : OrchCfg) (st : OrchState) :
    (maybeRefill cfg st).snapshot = st.snapshot ∧
    (maybeRefill cfg st).successes = st.successes ∧
    (maybeRefill cfg st).failures = st.failures ∧
    (maybeRefill cfg st).stop = st.stop := by
  rw [maybeRefill]
  split
  · exact ⟨rfl, rfl, rfl, rfl⟩
  · split
    · have hf := submit_more_fields cfg (cfg.window - st.inflight) st
      exact ⟨hf.1, hf.2.1, hf.2.2.1, hf.2.2.2.2.2⟩
    · exact ⟨rfl, rfl, rfl, rfl⟩

lemma setStopIf_stop_of (b : Bool) (st : OrchState) (h : st.stop = true) :
    (setStopIf b st).stop = true := by
  rw [setStopIf]
  split
  · rfl
  · exact h

lemma processOne_stopped (cfg : OrchCfg) (step : Bool × Nat) (st : OrchState)
    (h : st.stop = true) :
    (processOne cfg step st).pulled = st.pulled ∧
    (processOne cfg step st).stop = true := by
  have h1 : (setStopIf step.1 st).stop = true := setStopIf_stop_of step.1 st h
  rcases processOne_cases cfg step st with ⟨-, hc⟩ | ⟨j, d, pid, hj, hget, hc⟩
  · rw [hc]
    exact ⟨(setStopIf_fields step.1 st).2.1, h1⟩
  · rw [hc]
    have hcf := completeTask_fields cfg j d pid (setStopIf step.1 st)
    have h2 : (completeTask cfg j d pid (setStopIf step.1 st)).stop = true := by
      rw [hcf.2.2.2.2.2]
      exact h1
    have h3 : maybeRefill cfg (completeTask cfg j d pid (setStopIf step.1 st))
        = completeTask cfg j d pid (setStopIf step.1 st) := by
      rw [maybeRefill, if_pos]
      rw [h2]
      exact Bool.true_or _
    rw [h3]
    refine ⟨?_, h2⟩
    rw [hcf.2.1, (setStopIf_fields step.1 st).2.1]

lemma innerLoop_stopped (cfg : OrchCfg) :
    ∀ fuel sched st, st.stop = true →
      (innerLoop cfg fuel sched st).1.pulled = st.pulled ∧
      (innerLoop cfg fuel sched st).1.stop = true := by
  intro fuel
  induction fuel with
  | zero => intro sched st h; exact ⟨rfl, h⟩
  | succ fuel ih =>
    intro sched st h
    rw [innerLoop]
    by_cases he : st.snapshot.isEmpty = true
    · rw [if_pos he]
      exact ⟨rfl, h⟩
    · rw [if_neg he]
      have hp := processOne_stopped cfg (sched.headD (false, 0)) st h
      have hrec := ih sched.tail (processOne cfg (sched.headD (false, 0)) st) hp.2
      exact ⟨hrec.1.trans hp.1, hrec.2⟩

lemma outerLoop_stopped (cfg : OrchCfg) (fuel : Nat) (sched : List (Bool × Nat))
    (st : OrchState) (h : st.stop = true) :
    outerLoop cfg fuel sched st = (st, []) := by
  cases fuel with
  | zero => rfl
  | succ fuel =>
    rw [outerLoop, if_neg]
    rw [h]
    simp

lemma processOne_ledger_mono (cfg : OrchCfg) (step : Bool × Nat) (st : OrchState)
    (x : Int) :
    (x ∈ st.successes → x ∈ (processOne cfg step st).successes) ∧
    (x ∈ st.failures → x ∈ (processOne cfg step st).failures) := by
  have hsf := setStopIf_fields step.1 st
  rcases processOne_cases cfg step st with ⟨-, hc⟩ | ⟨j, d, pid, hj, hget, hc⟩
  · rw [hc, hsf.2.2.2.2.1, hsf.2.2.2.2.2.1]
    exact ⟨id, id⟩
  · rw [hc]
    have hmf := maybeRefill_fields cfg (completeTask cfg j d pid (setStopIf step.1 st))
    rw [hmf.2.1, hmf.2.2.1]
    rcases completeTask_cases cfg j d pid (setStopIf step.1 st) with
      ⟨-, hs, hf2, -, -⟩ | ⟨-, hs, hf2, -, -⟩
    · rw [hs, hf2, hsf.2.2.2.2.1, hsf.2.2.2.2.2.1]
      exact ⟨fun hx => List.mem_append.mpr (Or.inl hx), id⟩
    · rw [hs, hf2, hsf.2.2.2.2.1, hsf.2.2.2.2.2.1]
      exact ⟨id, fun hx => List.mem_append.mpr (Or.inl hx)⟩

lemma innerLoop_ledger_mono (cfg : OrchCfg) :
    ∀ fuel sched st (x : Int),
      (x ∈ st.successes → x ∈ (innerLoop cfg fuel sched st).1.successes) ∧
      (x ∈ st.failures → x ∈ (innerLoop cfg fuel sched st).1.failures) := by
  intro fuel
  induction fuel with
  | zero => intro sched st x; exact ⟨id, id⟩
  | succ fuel ih =>
    intro sched st x
    rw [innerLoop]
    by_cases he : st.snapshot.isEmpty = true
    · rw [if_pos he]
      exact ⟨id, id⟩
    · rw [if_neg he]
      have h1 := processOne_ledger_mono cfg (sched.headD (false, 0)) st x
      have h2 := ih sched.tail (processOne cfg (sched.headD (false, 0)) st) x
      exact ⟨fun hx => h2.1 (h1.1 hx), fun hx => h2.2 (h1.2 hx)⟩

lemma innerLoop_drain (cfg : OrchCfg) :
    ∀ fuel sched st (d : Nat) (pid : Int),
      st.snapshot.length ≤ fuel → (d, pid) ∈ st.snapshot →
      pid ∈ (innerLoop cfg fuel sched st).1.successes ∨
      pid ∈ (innerLoop cfg fuel sched st).1.failures := by
  intro fuel
  induction fuel with
  | zero =>
    intro sched st d pid hlen hmem
    have hnil : st.snapshot = [] := List.length_eq_zero.mp (Nat.le_zero.mp hlen)
    rw [hnil] at hmem
    cases hmem
  | succ fuel ih =>
    intro sched st d pid hlen hmem
    have hne : st.snapshot.isEmpty = false := by
      cases hsnap : st.snapshot
      · rw [hsnap] at hmem; cases hmem
      · rfl
    have hlen0 : 0 < st.snapshot.length := by
      cases hsnap : st.snapshot
      · rw [hsnap] at hmem; cases hmem
      · simp
    rw [innerLoop, if_neg (by rw [hne]; exact Bool.false_ne_true)]
    have hsf := setStopIf_fields (sched.headD (false, 0)).1 st
    rcases processOne_cases cfg (sched.headD (false, 0)) st with
      ⟨hnone, -⟩ | ⟨j, d0, pid0, hj, hget, hc⟩
    · exfalso
      rw [hsf.2.2.1] at hnone
      have hjlt : (sched.headD (false, 0)).2 % st.snapshot.length < st.snapshot.length :=
        Nat.mod_lt _ hlen0
      rw [List.get?_eq_get hjlt] at hnone
      cases hnone
    · rcases List.get?_eq_some.mp hget with ⟨hjlt, hgeteq⟩
      have hperm := perm_get_cons_eraseIdx (setStopIf (sched.headD (false, 0)).1 st).snapshot j hjlt
      rw [hgeteq] at hperm
      have hmem1 : (d, pid) ∈ (setStopIf (sched.headD (false, 0)).1 st).snapshot := by
        rw [hsf.2.2.1]
        exact hmem
      rcases List.mem_cons.mp (hperm.mem_iff.mp hmem1) with heq | hmem3
      · have hpid : pid = pid0 := congrArg Prod.snd heq
        subst hpid
        have hmf := maybeRefill_fields cfg
          (completeTask cfg j d0 pid (setStopIf (sched.headD (false, 0)).1 st))
        have hrec : pid ∈ (processOne cfg (sched.headD (false, 0)) st).successes ∨
            pid ∈ (processOne cfg (sched.headD (false, 0)) st).failures := by
          rcases completeTask_cases cfg j d0 pid (setStopIf (sched.headD (false, 0)).1 st) with
            ⟨-, hs, -, -, -⟩ | ⟨-, -, hf2, -, -⟩
          · left
            rw [hc, hmf.2.1, hs]
            exact List.mem_append.mpr (Or.inr (by simp))
          · right
            rw [hc, hmf.2.2.1, hf2]
            exact List.mem_append.mpr (Or.inr (by simp))
        have hmono := innerLoop_ledger_mono cfg fuel sched.tail
          (processOne cfg (sched.headD (false, 0)) st) pid
        rcases hrec with hrec | hrec
        · exact Or.inl (hmono.1 hrec)
        · exact Or.inr (hmono.2 hrec)
      · have hcf := completeTask_fields cfg j d0 pid0 (setStopIf (sched.headD (false, 0)).1 st)
        have hmf := maybeRefill_fields cfg
          (completeTask cfg j d0 pid0 (setStopIf (sched.headD (false, 0)).1 st))
        have hsnap2 : (processOne cfg (sched.headD (false, 0)) st).snapshot
            = (setStopIf (sched.headD (false, 0)).1 st).snapshot.eraseIdx j := by
          rw [hc, hmf.1, hcf.2.2.1]
        have hlen2 : (processOne cfg (sched.headD (false, 0)) st).snapshot.length ≤ fuel := by
          rw [hsnap2]
          have hplus := List.length_eraseIdx_add_one hjlt
          have hlens : (setStopIf (sched.headD (false, 0)).1 st).snapshot.length
              = st.snapshot.length := by rw [hsf.2.2.1]
          omega
        exact ih sched.tail (processOne cfg (sched.headD (false, 0)) st) d pid hlen2
          (by rw [hsnap2]; exact hmem3)

/-- C3 amended: once the stop flag is set the orchestrator pulls and
dispatches nothing further — `submit_more` is the identity, a completion
step records but never pulls, the batch loop leaves the pulled list
untouched, and the outer loop exits at once — and every task in the current
completion snapshot is still drained into one of the two ledgers; tasks
sitting in the fresh set (dispatched after the snapshot was taken) are not
covered: the exiting outer loop abandons them, so a task dispatched before
the signal can end up in neither ledger. -/
theorem C3_stop_semantics (cfg : OrchCfg) :
    (∀ n st, st.stop = true → submit_more cfg n st = st) ∧
    (∀ step st, st.stop = true →
      (processOne cfg step st).pulled = st.pulled ∧
      (processOne cfg step st).stop = true) ∧
    (∀ fuel sched st, st.stop = true →
      (innerLoop cfg fuel sched st).1.pulled = st.pulled) ∧
    (∀ fuel sched st, st.stop = true → outerLoop cfg fuel sched st = (st, [])) ∧
    (∀ fuel sched st (d : Nat) (pid : Int),
      st.snapshot.length ≤ fuel → (d, pid) ∈ st.snapshot →
      pid ∈ (innerLoop cfg fuel sched st).1.successes ∨
      pid ∈ (innerLoop cfg fuel sched st).1.failures) :=
  ⟨fun n st h => submit_more_noop cfg n st (Or.inl h),
   fun step st h => processOne_stopped cfg step st h,
   fun fuel sched st h => (innerLoop_stopped cfg fuel sched st h).1,
   fun fuel sched st h => outerLoop_stopped cfg fuel sched st h,
   fun fuel sched st d pid hlen hmem => innerLoop_drain cfg fuel sched st d pid hlen hmem⟩

/-- Run configuration for the C3 counterexample: unbounded sequential
source, every task succeeds; the second completion is preceded by the
signal. -/
def c3Cfg : OrchCfg :=
  { source := ids_from_start 1 10,
    outcomes := fun _ => ⟨true, none, none⟩,
    amount := 0, workersArg := 1 }

/-- The C3 counterexample run: prefill dispatches ids 1-4; the first
completion refills with id 5; the signal arrives before the second
completion. -/
def c3Run : OrchState × List OrchState :=
  runOrch c3Cfg 3 [(false, 0), (true, 0), (false, 0), (false, 0)]

/-- C3 counterexample: id 5 is dispatched (pulled, in the fresh set) while
the stop flag is still unset, the flag is set afterwards, the three
remaining snapshot tasks are still recorded — but task 5, although
dispatched before the flag was set, ends the run in neither ledger. -/
theorem C3_counterexample :
    (c3Run.2.getD 2 initOrch).stop = false ∧
    (4, (5 : Int)) ∈ (c3Run.2.getD 2 initOrch).fresh ∧
    c3Run.1.stop = true ∧
    (5 : Int) ∈ c3Run.1.pulled ∧
    c3Run.1.successes = [1, 2, 3, 4] ∧
    c3Run.1.failures = [] ∧
    c3Run.1.successes.count 5 = 0 ∧
    c3Run.1.failures.count 5 = 0 := by decide

/-- Run configuration for the C3 witness. -/
def c3wCfg : OrchCfg :=
  { source := ids_from_start 50 0,
    outcomes := fun _ => ⟨true, none, none⟩,
    amount := 0, workersArg := 1 }

/-- A stopped state with one task in the completion snapshot. -/
def c3wSt : OrchState :=
  { pullIdx := 1, pulled := [9], snapshot := [(0, 9)], fresh := [],
    successes := [], failures := [], rows := [], succCount := 0,
    idExhausted := false, stop := true }

/-- Witness for the amended C3: from a stopped state, draining the snapshot
records its task and pulls nothing new. -/
theorem C3_witness :
    (innerLoop c3wCfg 1 [] c3wSt).1.pulled = c3wSt.pulled ∧
    ((9 : Int) ∈ (innerLoop c3wCfg 1 [] c3wSt).1.successes ∨
     (9 : Int) ∈ (innerLoop c3wCfg 1 [] c3wSt).1.failures) :=
  ⟨(C3_stop_semantics c3wCfg).2.2.1 1 [] c3wSt rfl,
   (C3_stop_semantics c3wCfg).2.2.2.2 1 [] c3wSt 0 9 (by decide) (by decide)⟩

/-! ### C1: the end-to-end sequential scenario -/

/-- The collaborator `json.loads` accepting everything, for the C1 run. -/
def c1JsonOk : List Nat → Bool := fun _ => true

/-- Simulated service of the scenario: id 100 fails its first attempt with
a connection error and succeeds on the retry; id 101 succeeds immediately;
id 102 times out on every attempt. -/
def c1Script (pid : Int) : Nat → AttemptSpec :=
  if pid = 100 then
    fun a => if a = 1 then .netConnFail "connection refused"
             else .response 200 [123, 125] none
  else if pid = 101 then fun _ => .response 200 [123, 125] none
  else fun _ => .netTimeout "timed out"

/-- The scenario run: `--start-id 100 --amount 3 --workers 1 --retry 2`,
with the worker outcomes produced by the worker model itself.  As in
`main` (line 275), the sequential source is bounded by `amount`. -/
def c1Cfg : OrchCfg :=
  { source := ids_from_start 100 3,
    outcomes := fun d =>
      (worker_download_pack c1JsonOk (c1Script (100 + d)) (100 + d) 2).toOutcome,
    amount := 3, workersArg := 1 }

/-- C1 evaluation: the run ends with success ledger `[100, 101]` and
failure ledger `[102]`; only ids 100-102 are ever pulled — the bounded
sequential source is exhausted after 102, so 103 is never pulled and the
success target of 3 is not met (the run ends with 2 successes). -/
theorem C1_run_evaluation :
    (runOrch c1Cfg 2 [(false, 0), (false, 0), (false, 0)]).1.successes = [100, 101] ∧
    (runOrch c1Cfg 2 [(false, 0), (false, 0), (false, 0)]).1.failures = [102] ∧
    (runOrch c1Cfg 2 [(false, 0), (false, 0), (false, 0)]).1.pulled = [100, 101, 102] ∧
    (runOrch c1Cfg 2 [(false, 0), (false, 0), (false, 0)]).1.succCount = 2 ∧
    (runOrch c1Cfg 2 [(false, 0), (false, 0), (false, 0)]).1.idExhausted = true ∧
    (runOrch c1Cfg 2 [(false, 0), (false, 0), (false, 0)]).1.pulled.count 103 = 0 ∧
    ids_from_start 100 3 2 = some 102 ∧
    ids_from_start 100 3 3 = none := by decide

end ScratchDownloader
